import Mathlib

/-!
Verification of the discord-notification-bot repository.

Two entry points are embedded:
- the sender (`src/notification-bot.js`): reads a message from standard input
  and delivers it as a direct message;
- the purger (`src/purge-conversation.js`): pages backward through a direct
  message conversation and deletes every message authored by the bot.

Asynchronous runs are embedded as pure functions producing a trace of actions
(an explicit event list) together with a result; machine behaviour such as the
single-settlement rule of promises is modelled explicitly.
-/

set_option maxHeartbeats 1000000

/-- Decidable equality for `Except`, used to evaluate run results. -/
instance exceptDecEq {ε α : Type} [DecidableEq ε] [DecidableEq α] :
    DecidableEq (Except ε α) := fun x y =>
  match x, y with
  | Except.ok a, Except.ok b =>
    if h : a = b then Decidable.isTrue (congrArg Except.ok h)
    else Decidable.isFalse (fun hc => h (Except.ok.inj hc))
  | Except.error a, Except.error b =>
    if h : a = b then Decidable.isTrue (congrArg Except.error h)
    else Decidable.isFalse (fun hc => h (Except.error.inj hc))
  | Except.ok _, Except.error _ => Decidable.isFalse (fun hc => Except.noConfusion hc)
  | Except.error _, Except.ok _ => Decidable.isFalse (fun hc => Except.noConfusion hc)

/-! ### Generic string helpers (JavaScript primitives used by the source) -/

/-- Whitespace characters removed by JavaScript `String.prototype.trim`
(the common subset that occurs in shell-fed input). -/
def isJsWhitespace (c : Char) : Bool :=
  c = ' ' || c = '\n' || c = '\t' || c = '\r'

/-- JavaScript `input.trim()`: strip leading and trailing whitespace. -/
def jsTrim (s : String) : String :=
  String.mk (((s.data.dropWhile isJsWhitespace).reverse.dropWhile isJsWhitespace).reverse)

/-- JavaScript `array.join(", ")` on a list of strings. -/
def joinComma : List String → String
  | [] => ""
  | [k] => k
  | k :: k2 :: ks => k ++ ", " ++ joinComma (k2 :: ks)

/-- `matchesAt pat l` is true when `pat` occurs at the very front of `l`. -/
def matchesAt : List Char → List Char → Bool
  | [], _ => true
  | _ :: _, [] => false
  | c :: p, d :: l => c == d && matchesAt p l

/-- `hasSub pat l` is true when `pat` occurs contiguously anywhere in `l`. -/
def hasSub (p : List Char) : List Char → Bool
  | [] => matchesAt p []
  | c :: l => matchesAt p (c :: l) || hasSub p l

/-- JavaScript `s.includes(pat)`: substring containment test. -/
def strIncludes (s pat : String) : Bool :=
  hasSub pat.data s.data

/-! ### Shared configuration (`CONFIG` in both source files) -/

/-- `CONFIG.REQUIRED_ENV_VARS`, identical in both entry points. -/
def REQUIRED_ENV_VARS : List String := ["BOT_TOKEN", "DM_USER_ID"]

/-- Sender `CONFIG.EXIT_CODES.SUCCESS`. -/
def SENDER_SUCCESS : Nat := 0

/-- Sender `CONFIG.EXIT_CODES.NO_MESSAGE`. -/
def SENDER_NO_MESSAGE : Nat := 1

/-- Sender `CONFIG.EXIT_CODES.MISSING_ENV`. -/
def SENDER_MISSING_ENV : Nat := 2

/-- Sender `CONFIG.EXIT_CODES.DISCORD_ERROR`. -/
def SENDER_DISCORD_ERROR : Nat := 3

/-- Sender `CONFIG.EXIT_CODES.STDIN_ERROR`. -/
def SENDER_STDIN_ERROR : Nat := 4

/-- Purger `CONFIG.EXIT_CODES.SUCCESS`. -/
def PURGER_SUCCESS : Nat := 0

/-- Purger `CONFIG.EXIT_CODES.MISSING_ENV`. -/
def PURGER_MISSING_ENV : Nat := 1

/-- Purger `CONFIG.EXIT_CODES.DISCORD_ERROR`. -/
def PURGER_DISCORD_ERROR : Nat := 2

/-- Purger `CONFIG.EXIT_CODES.RATE_LIMIT`. -/
def PURGER_RATE_LIMIT : Nat := 3

/-- Purger `CONFIG.RATE_LIMIT.DELAY_MS`. -/
def DELAY_MS : Nat := 1000

/-- Purger `CONFIG.RATE_LIMIT.BATCH_SIZE`. -/
def BATCH_SIZE : Nat := 50

/-- The fault code the purger treats as the rate-limit signal
(`error.code === 50001`). -/
def RATE_LIMIT_SIGNAL : Nat := 50001

/-! ### Environment validation (`validateEnvironment`, identical in both files) -/

/-- JavaScript truthiness of `process.env[k]`: present means defined and
non-empty. -/
def envPresent (env : String → Option String) (k : String) : Bool :=
  match env k with
  | none => false
  | some v => v != ""

/-- `missingVars` as computed by `validateEnvironment`. -/
def missingVars (env : String → Option String) : List String :=
  REQUIRED_ENV_VARS.filter (fun k => !envPresent env k)

/-- The error message thrown by `validateEnvironment` when keys are missing. -/
def envErrorMsg (env : String → Option String) : String :=
  "Missing required environment variables: " ++ joinComma (missingVars env)

/-- `validateEnvironment`: throws when `missingVars.length > 0`. -/
def validateEnvironment (env : String → Option String) : Except String Unit :=
  if 0 < (missingVars env).length then Except.error (envErrorMsg env)
  else Except.ok ()

/-! ### Standard-input reader (`readStdin` in `src/notification-bot.js`)

The `end` handler first calls `reject` when the trimmed input is empty, and
then — with no early return — also calls `resolve`.  A promise settles only
once, so the settlement attempts are modelled as a list in program order and
the promise's value is the first entry. -/

/-- The settlement attempts made by the `end` handler of `readStdin`, in the
order the source issues them: a rejection when the trimmed input is empty,
followed unconditionally by a resolution with the trimmed input. -/
def endHandlerSettlements (input : String) : List (Except String String) :=
  (if jsTrim input = "" then [Except.error "No message input received"] else [])
    ++ [Except.ok (jsTrim input)]

/-- The settled value of the `readStdin` promise: the first settlement wins.
The list built by `endHandlerSettlements` is never empty, so the fallback
branch is unreachable. -/
def readStdinResult (input : String) : Except String String :=
  match endHandlerSettlements input with
  | [] => Except.ok (jsTrim input)
  | s :: _ => s

/-! ### Exit-code mapping in the two `main` catch blocks -/

/-- Exit code chosen by the sender's `main` catch block from the error text. -/
def senderExitCode (msg : String) : Nat :=
  if strIncludes msg "environment variables" then SENDER_MISSING_ENV
  else if strIncludes msg "stdin" then SENDER_STDIN_ERROR
  else SENDER_DISCORD_ERROR

/-- Exit code chosen by the purger's `main` catch block from the error text. -/
def purgerCatchExitCode (msg : String) : Nat :=
  if strIncludes msg "environment variables" then PURGER_MISSING_ENV
  else PURGER_DISCORD_ERROR

/-- Exit code chosen by the purger's ready handler when the purge fails. -/
def purgerRunExitCode (msg : String) : Nat :=
  if strIncludes msg "Rate limit" then PURGER_RATE_LIMIT
  else PURGER_DISCORD_ERROR

/-! ### Process-level actions -/

/-- Observable process-level actions of either entry point. -/
inductive SAction where
  | createClient : SAction
  | login : SAction
  | send : String → SAction
  | destroy : SAction
  | logErr : String → SAction
  | logCount : Nat → SAction
deriving DecidableEq, Repr

/-- The externally determined outcome of the sender's client phase: the ready
event fires and the send either succeeds (`ready none`) or fails with a
message, an asynchronous client error fires first, or `client.login` itself
rejects. -/
inductive SenderNet where
  | ready : Option String → SenderNet
  | asyncError : String → SenderNet
  | loginFail : String → SenderNet
deriving DecidableEq, Repr

/-- True for outcomes in which login succeeded (the ready or error event
fires after a successful login). -/
def senderPostLogin : SenderNet → Bool
  | SenderNet.loginFail _ => false
  | _ => true

/-- The sender's `main`, as a trace of actions plus the exit code.  Mirrors
`src/notification-bot.js`: validate, read stdin, construct the client,
register handlers, login; the ready handler sends and destroys, the error
handler destroys, the outer catch maps the message text to an exit code
without destroying. -/
def senderMain (env : String → Option String) (input : String) (net : SenderNet) :
    List SAction × Nat :=
  match validateEnvironment env with
  | Except.error e => ([SAction.logErr e], senderExitCode e)
  | Except.ok _ =>
    match readStdinResult input with
    | Except.error e => ([SAction.logErr e], senderExitCode e)
    | Except.ok msg =>
      match net with
      | SenderNet.loginFail e => ([SAction.createClient, SAction.logErr e], senderExitCode e)
      | SenderNet.asyncError e =>
          ([SAction.createClient, SAction.login, SAction.logErr e, SAction.destroy],
           SENDER_DISCORD_ERROR)
      | SenderNet.ready none =>
          ([SAction.createClient, SAction.login, SAction.send msg, SAction.destroy],
           SENDER_SUCCESS)
      | SenderNet.ready (some e) =>
          ([SAction.createClient, SAction.login,
            SAction.logErr ("Failed to send DM: " ++ e), SAction.destroy],
           SENDER_DISCORD_ERROR)

/-! ### Purge engine (`deleteBotMessagesFromDM` in `src/purge-conversation.js`) -/

/-- A remote message: identifier and author identifier. -/
structure Msg where
  id : Nat
  authorId : Nat
deriving DecidableEq, Repr

/-- Observable events of the purge loop: a page fetch (cursor and page size),
a successful deletion (with its progress log line), the fixed rate-limit
delay, and a logged per-message deletion failure. -/
inductive Event where
  | fetch : Option Nat → Nat → Event
  | deleteOk : Nat → Event
  | delay : Nat → Event
  | deleteFail : Nat → Nat → Event
deriving DecidableEq, Repr

/-- The messages strictly older than the cursor (all of them when the cursor
is unset), newest first.  A Discord snowflake is older exactly when its
identifier is smaller. -/
def remainingMsgs (conv : List Msg) : Option Nat → List Msg
  | none => conv
  | some c => conv.filter (fun m => m.id < c)

/-- `dmChannel.messages.fetch({limit, before})`: the newest `limit` messages
strictly older than the cursor. -/
def fetchMessages (conv : List Msg) (cursor : Option Nat) (limit : Nat) : List Msg :=
  (remainingMsgs conv cursor).take limit

/-- The `for (const message of messages.values())` body: attempt deletion of
every bot-authored message; on success count it, log it and delay; on the
rate-limit signal code throw; on any other fault log and continue.
`del` gives the fault code of a deletion attempt (`none` means success).
Returns the events, the updated tally, and the thrown message if any. -/
def processPage (botId : Nat) (del : Nat → Option Nat) :
    List Msg → Nat → List Event × Nat × Option String
  | [], count => ([], count, none)
  | m :: rest, count =>
    if m.authorId = botId then
      match del m.id with
      | none =>
        let r := processPage botId del rest (count + 1)
        (Event.deleteOk m.id :: Event.delay DELAY_MS :: r.1, r.2)
      | some code =>
        if code = RATE_LIMIT_SIGNAL then ([], count, some "Rate limit exceeded")
        else
          let r := processPage botId del rest count
          (Event.deleteFail m.id code :: r.1, r.2)
    else processPage botId del rest count

/-- The `while (true)` pagination loop.  `fuel` is a modelling bound on the
number of iterations; `conv.length + 1` is proved sufficient for sorted
conversations.  A fetched empty page ends the loop; otherwise the page is
processed and the cursor advances to the identifier of the page's last
message. -/
def purgeLoop (botId : Nat) (del : Nat → Option Nat) (conv : List Msg) :
    Nat → Option Nat → Nat → List Event × Option (Except String Nat)
  | 0, _, _ => ([], none)
  | fuel + 1, cursor, count =>
    if hp : fetchMessages conv cursor BATCH_SIZE = [] then
      ([Event.fetch cursor 0], some (Except.ok count))
    else
      let page := fetchMessages conv cursor BATCH_SIZE
      let pr := processPage botId del page count
      match pr.2.2 with
      | some e => (Event.fetch cursor page.length :: pr.1, some (Except.error e))
      | none =>
        let next := purgeLoop botId del conv fuel (some ((page.getLast hp).id)) pr.2.1
        (Event.fetch cursor page.length :: pr.1 ++ next.1, next.2)

/-- `deleteBotMessagesFromDM`: run the pagination loop from the newest
message; the outer catch wraps a thrown message. -/
def deleteBotMessagesFromDM (botId : Nat) (del : Nat → Option Nat) (conv : List Msg) :
    List Event × Option (Except String Nat) :=
  let r := purgeLoop botId del conv (conv.length + 1) none 0
  (r.1,
   r.2.map (fun res =>
     match res with
     | Except.ok n => Except.ok n
     | Except.error e => Except.error ("Failed to delete messages: " ++ e)))

/-- The externally determined outcome of the purger's client phase. -/
inductive PurgerNet where
  | ready : PurgerNet
  | asyncError : String → PurgerNet
  | loginFail : String → PurgerNet
deriving DecidableEq, Repr

/-- True for outcomes in which login succeeded. -/
def purgerPostLogin : PurgerNet → Bool
  | PurgerNet.loginFail _ => false
  | _ => true

/-- The purger's `main`, as a trace of actions plus the exit code.  Mirrors
`src/purge-conversation.js`: validate, construct the client, register
handlers, login; the ready handler runs the purge and destroys, mapping a
failure message to an exit code; the error handler destroys; the outer catch
maps the message text without destroying. -/
def purgerMain (env : String → Option String) (net : PurgerNet) (botId : Nat)
    (del : Nat → Option Nat) (conv : List Msg) : List SAction × Nat :=
  match validateEnvironment env with
  | Except.error e => ([SAction.logErr e], purgerCatchExitCode e)
  | Except.ok _ =>
    match net with
    | PurgerNet.loginFail e =>
        ([SAction.createClient, SAction.logErr e], purgerCatchExitCode e)
    | PurgerNet.asyncError e =>
        ([SAction.createClient, SAction.login, SAction.logErr e, SAction.destroy],
         PURGER_DISCORD_ERROR)
    | PurgerNet.ready =>
      match (deleteBotMessagesFromDM botId del conv).2 with
      | some (Except.ok n) =>
          ([SAction.createClient, SAction.login, SAction.logCount n, SAction.destroy],
           PURGER_SUCCESS)
      | some (Except.error e) =>
          ([SAction.createClient, SAction.login, SAction.logErr e, SAction.destroy],
           purgerRunExitCode e)
      | none => ([SAction.createClient, SAction.login], PURGER_DISCORD_ERROR)

/-! ### Derived observations on purge traces -/

/-- The fetch events of a trace: cursor and page size of each fetch. -/
def fetchEvents (evs : List Event) : List (Option Nat × Nat) :=
  evs.filterMap (fun e =>
    match e with
    | Event.fetch c n => some (c, n)
    | _ => none)

/-- The number of page fetches in a trace. -/
def fetchCount (evs : List Event) : Nat := (fetchEvents evs).length

/-- The identifiers of successfully deleted messages, in deletion order. -/
def okIds (evs : List Event) : List Nat :=
  evs.filterMap (fun e =>
    match e with
    | Event.deleteOk i => some i
    | _ => none)

/-- The logged per-message deletion failures: identifier and fault code. -/
def failPairs (evs : List Event) : List (Nat × Nat) :=
  evs.filterMap (fun e =>
    match e with
    | Event.deleteFail i c => some (i, c)
    | _ => none)

/-- The number of rate-limit delays in a trace. -/
def delayCount (evs : List Event) : Nat :=
  (evs.filterMap (fun e =>
    match e with
    | Event.delay m => some m
    | _ => none)).length

/-- The bot-authored messages of a list, in order. -/
def botList (botId : Nat) (p : List Msg) : List Msg :=
  p.filter (fun m => m.authorId == botId)

/-- The bot-authored messages whose deletion succeeds, in order. -/
def expectedOks (botId : Nat) (del : Nat → Option Nat) (p : List Msg) : List Nat :=
  p.filterMap (fun m =>
    if m.authorId = botId then
      match del m.id with
      | none => some m.id
      | some _ => none
    else none)

/-- The bot-authored messages whose deletion faults, with the fault code. -/
def expectedFails (botId : Nat) (del : Nat → Option Nat) (p : List Msg) :
    List (Nat × Nat) :=
  p.filterMap (fun m =>
    if m.authorId = botId then (del m.id).map (fun c => (m.id, c))
    else none)

/-- Number of pages fetched up to and including the page containing the
message with the given identifier (all pages when it occurs in none). -/
def pagesUntil : List Msg → Nat → Nat
  | [], _ => 0
  | m :: r, tid =>
    if tid ∈ ((m :: r).take BATCH_SIZE).map Msg.id then 1
    else 1 + pagesUntil ((m :: r).drop BATCH_SIZE) tid
termination_by r _ => r.length
decreasing_by
  simp only [BATCH_SIZE, List.length_drop, List.length_cons]
  omega

/-- A conversation as delivered by the platform: newest first, identifiers
strictly decreasing. -/
def SortedConv (conv : List Msg) : Prop :=
  List.Pairwise (fun a b => b.id < a.id) conv

/-- Sortedness of a concrete conversation is decidable. -/
instance sortedConvDec (conv : List Msg) : Decidable (SortedConv conv) := by
  unfold SortedConv
  infer_instance

/-! ### Trace-extraction simp lemmas -/

@[simp] theorem fetchEvents_nil : fetchEvents [] = [] := rfl

@[simp] theorem fetchEvents_cons_fetch (c n evs) :
    fetchEvents (Event.fetch c n :: evs) = (c, n) :: fetchEvents evs := rfl

@[simp] theorem fetchEvents_cons_ok (i evs) :
    fetchEvents (Event.deleteOk i :: evs) = fetchEvents evs := rfl

@[simp] theorem fetchEvents_cons_delay (ms evs) :
    fetchEvents (Event.delay ms :: evs) = fetchEvents evs := rfl

@[simp] theorem fetchEvents_cons_fail (i c evs) :
    fetchEvents (Event.deleteFail i c :: evs) = fetchEvents evs := rfl

@[simp] theorem fetchEvents_append (a b : List Event) :
    fetchEvents (a ++ b) = fetchEvents a ++ fetchEvents b :=
  List.filterMap_append a b _

@[simp] theorem okIds_nil : okIds [] = [] := rfl

@[simp] theorem okIds_cons_fetch (c n evs) :
    okIds (Event.fetch c n :: evs) = okIds evs := rfl

@[simp] theorem okIds_cons_ok (i evs) :
    okIds (Event.deleteOk i :: evs) = i :: okIds evs := rfl

@[simp] theorem okIds_cons_delay (ms evs) :
    okIds (Event.delay ms :: evs) = okIds evs := rfl

@[simp] theorem okIds_cons_fail (i c evs) :
    okIds (Event.deleteFail i c :: evs) = okIds evs := rfl

@[simp] theorem okIds_append (a b : List Event) :
    okIds (a ++ b) = okIds a ++ okIds b :=
  List.filterMap_append a b _

@[simp] theorem failPairs_nil : failPairs [] = [] := rfl

@[simp] theorem failPairs_cons_fetch (c n evs) :
    failPairs (Event.fetch c n :: evs) = failPairs evs := rfl

@[simp] theorem failPairs_cons_ok (i evs) :
    failPairs (Event.deleteOk i :: evs) = failPairs evs := rfl

@[simp] theorem failPairs_cons_delay (ms evs) :
    failPairs (Event.delay ms :: evs) = failPairs evs := rfl

@[simp] theorem failPairs_cons_fail (i c evs) :
    failPairs (Event.deleteFail i c :: evs) = (i, c) :: failPairs evs := rfl

@[simp] theorem failPairs_append (a b : List Event) :
    failPairs (a ++ b) = failPairs a ++ failPairs b :=
  List.filterMap_append a b _

@[simp] theorem delayCount_nil : delayCount [] = 0 := rfl

@[simp] theorem delayCount_cons_fetch (c n evs) :
    delayCount (Event.fetch c n :: evs) = delayCount evs := rfl

@[simp] theorem delayCount_cons_ok (i evs) :
    delayCount (Event.deleteOk i :: evs) = delayCount evs := rfl

@[simp] theorem delayCount_cons_delay (ms evs) :
    delayCount (Event.delay ms :: evs) = delayCount evs + 1 := by
  simp [delayCount, List.filterMap_cons]

@[simp] theorem delayCount_cons_fail (i c evs) :
    delayCount (Event.deleteFail i c :: evs) = delayCount evs := rfl

@[simp] theorem delayCount_append (a b : List Event) :
    delayCount (a ++ b) = delayCount a + delayCount b := by
  simp [delayCount, List.filterMap_append]

@[simp] theorem expectedOks_nil (botId del) : expectedOks botId del [] = [] := rfl

@[simp] theorem expectedFails_nil (botId del) : expectedFails botId del [] = [] := rfl

@[simp] theorem expectedOks_append (botId del) (a b : List Msg) :
    expectedOks botId del (a ++ b) = expectedOks botId del a ++ expectedOks botId del b :=
  List.filterMap_append a b _

@[simp] theorem expectedFails_append (botId del) (a b : List Msg) :
    expectedFails botId del (a ++ b) =
      expectedFails botId del a ++ expectedFails botId del b :=
  List.filterMap_append a b _

@[simp] theorem botList_nil (botId) : botList botId [] = [] := rfl

@[simp] theorem botList_append (botId) (a b : List Msg) :
    botList botId (a ++ b) = botList botId a ++ botList botId b :=
  List.filter_append a b

/-! ### Sortedness helpers -/

theorem remainingMsgs_sorted (conv : List Msg) (hs : SortedConv conv) (cursor : Option Nat) :
    SortedConv (remainingMsgs conv cursor) := by
  cases cursor with
  | none => exact hs
  | some c => exact List.Pairwise.filter _ hs

theorem sortedConv_getLast_min {l : List Msg} (hs : SortedConv l) (h : l ≠ []) :
    ∀ x ∈ l, (l.getLast h).id ≤ x.id := by
  induction l with
  | nil => cases h rfl
  | cons a t ih =>
    intro x hx
    cases t with
    | nil =>
      rcases List.mem_cons.mp hx with rfl | hx2
      · simp [List.getLast]
      · cases hx2
    | cons b t2 =>
      rw [List.getLast_cons (by simp)]
      rcases List.mem_cons.mp hx with rfl | hx2
      · have hmem := List.getLast_mem (l := b :: t2) (by simp)
        have := (List.pairwise_cons.mp hs).1 _ hmem
        omega
      · exact ih (List.pairwise_cons.mp hs).2 (by simp) x hx2

theorem sortedConv_take_lt_drop {l : List Msg} (hs : SortedConv l) (n : Nat) :
    ∀ a ∈ l.take n, ∀ b ∈ l.drop n, b.id < a.id := by
  have hs2 : SortedConv (l.take n ++ l.drop n) := by
    rwa [List.take_append_drop]
  exact (List.pairwise_append.mp hs2).2.2

theorem filter_lt_getLast_take {l : List Msg} (hs : SortedConv l) (n : Nat)
    (h : l.take n ≠ []) :
    l.filter (fun m => m.id < ((l.take n).getLast h).id) = l.drop n := by
  have htake : (l.take n).filter (fun m => m.id < ((l.take n).getLast h).id) = [] := by
    rw [List.filter_eq_nil_iff]
    intro a ha
    have hle := sortedConv_getLast_min (hs.sublist (List.take_sublist n l)) h a ha
    simp only [decide_eq_true_eq]
    omega
  have hdrop : (l.drop n).filter (fun m => m.id < ((l.take n).getLast h).id) = l.drop n := by
    rw [List.filter_eq_self]
    intro b hb
    have := sortedConv_take_lt_drop hs n _ (List.getLast_mem h) b hb
    simp only [decide_eq_true_eq]
    exact this
  have hsplit :
      l.filter (fun m => m.id < ((l.take n).getLast h).id) =
        (l.take n ++ l.drop n).filter (fun m => m.id < ((l.take n).getLast h).id) := by
    rw [List.take_append_drop]
  rw [hsplit, List.filter_append, htake, hdrop, List.nil_append]

theorem sorted_id_inj {conv : List Msg} (hs : SortedConv conv) :
    ∀ m ∈ conv, ∀ m' ∈ conv, m.id = m'.id → m = m' := by
  induction conv with
  | nil => intro m hm; cases hm
  | cons a t ih =>
    intro m hm m' hm' hid
    rcases List.mem_cons.mp hm with rfl | hm2 <;> rcases List.mem_cons.mp hm' with rfl | hm2'
    · rfl
    · have := (List.pairwise_cons.mp hs).1 m' hm2'
      omega
    · have := (List.pairwise_cons.mp hs).1 m hm2
      omega
    · exact ih (List.pairwise_cons.mp hs).2 m hm2 m' hm2' hid

theorem remainingMsgs_advance (conv : List Msg) (hs : SortedConv conv) (cursor : Option Nat)
    (h : (remainingMsgs conv cursor).take BATCH_SIZE ≠ []) :
    remainingMsgs conv
        (some ((((remainingMsgs conv cursor).take BATCH_SIZE)).getLast h).id) =
      (remainingMsgs conv cursor).drop BATCH_SIZE := by
  have hr : SortedConv (remainingMsgs conv cursor) := remainingMsgs_sorted conv hs cursor
  have hB := filter_lt_getLast_take hr BATCH_SIZE h
  cases cursor with
  | none => exact hB
  | some c =>
    have hc2c :
        (((remainingMsgs conv (some c)).take BATCH_SIZE).getLast h).id < c := by
      have hmem :
          ((remainingMsgs conv (some c)).take BATCH_SIZE).getLast h ∈
            remainingMsgs conv (some c) :=
        List.take_subset BATCH_SIZE _ (List.getLast_mem h)
      have := (List.mem_filter.mp hmem).2
      simpa using this
    show conv.filter _ = _
    rw [← hB]
    show conv.filter _ = (conv.filter _).filter _
    rw [List.filter_filter]
    apply List.filter_congr
    intro m _
    by_cases hm : m.id < (((remainingMsgs conv (some c)).take BATCH_SIZE).getLast h).id
    · have hmc : m.id < c := lt_trans hm hc2c
      simp [hm, hmc]
    · simp [hm]

/-! ### Conditional cons lemmas for page-level bookkeeping -/

theorem botList_cons_bot {botId : Nat} {m : Msg} {rest : List Msg}
    (hb : m.authorId = botId) :
    botList botId (m :: rest) = m :: botList botId rest := by
  simp [botList, hb]

theorem botList_cons_nonbot {botId : Nat} {m : Msg} {rest : List Msg}
    (hb : ¬m.authorId = botId) :
    botList botId (m :: rest) = botList botId rest := by
  simp [botList, hb]

theorem expectedOks_cons_ok {botId : Nat} {del : Nat → Option Nat} {m : Msg}
    {rest : List Msg} (hb : m.authorId = botId) (hdel : del m.id = none) :
    expectedOks botId del (m :: rest) = m.id :: expectedOks botId del rest := by
  simp [expectedOks, List.filterMap_cons, hb, hdel]

theorem expectedOks_cons_fail {botId : Nat} {del : Nat → Option Nat} {m : Msg}
    {rest : List Msg} {code : Nat} (hb : m.authorId = botId)
    (hdel : del m.id = some code) :
    expectedOks botId del (m :: rest) = expectedOks botId del rest := by
  simp [expectedOks, List.filterMap_cons, hb, hdel]

theorem expectedOks_cons_nonbot {botId : Nat} {del : Nat → Option Nat} {m : Msg}
    {rest : List Msg} (hb : ¬m.authorId = botId) :
    expectedOks botId del (m :: rest) = expectedOks botId del rest := by
  simp [expectedOks, List.filterMap_cons, hb]

theorem expectedFails_cons_ok {botId : Nat} {del : Nat → Option Nat} {m : Msg}
    {rest : List Msg} (hb : m.authorId = botId) (hdel : del m.id = none) :
    expectedFails botId del (m :: rest) = expectedFails botId del rest := by
  simp [expectedFails, List.filterMap_cons, hb, hdel]

theorem expectedFails_cons_fail {botId : Nat} {del : Nat → Option Nat} {m : Msg}
    {rest : List Msg} {code : Nat} (hb : m.authorId = botId)
    (hdel : del m.id = some code) :
    expectedFails botId del (m :: rest) = (m.id, code) :: expectedFails botId del rest := by
  simp [expectedFails, List.filterMap_cons, hb, hdel]

theorem expectedFails_cons_nonbot {botId : Nat} {del : Nat → Option Nat} {m : Msg}
    {rest : List Msg} (hb : ¬m.authorId = botId) :
    expectedFails botId del (m :: rest) = expectedFails botId del rest := by
  simp [expectedFails, List.filterMap_cons, hb]

/-! ### Page-processing characterizations -/

theorem processPage_fetchEvents (botId : Nat) (del : Nat → Option Nat) :
    ∀ (p : List Msg) (count : Nat),
      fetchEvents (processPage botId del p count).1 = [] := by
  intro p
  induction p with
  | nil => intro count; simp [processPage]
  | cons m rest ih =>
    intro count
    by_cases hb : m.authorId = botId
    · cases hdel : del m.id with
      | none => simp [processPage, hb, hdel, ih]
      | some code =>
        by_cases hc : code = RATE_LIMIT_SIGNAL
        · simp [processPage, hb, hdel, hc]
        · simp [processPage, hb, hdel, hc, ih]
    · simp [processPage, hb, ih]

theorem processPage_noRL (botId : Nat) (del : Nat → Option Nat) :
    ∀ (p : List Msg) (count : Nat),
      (∀ m ∈ p, m.authorId = botId → del m.id ≠ some RATE_LIMIT_SIGNAL) →
      (processPage botId del p count).2.2 = none ∧
      (processPage botId del p count).2.1 = count + (expectedOks botId del p).length ∧
      okIds (processPage botId del p count).1 = expectedOks botId del p ∧
      failPairs (processPage botId del p count).1 = expectedFails botId del p ∧
      delayCount (processPage botId del p count).1 = (expectedOks botId del p).length := by
  intro p
  induction p with
  | nil => intro count _; simp [processPage]
  | cons m rest ih =>
    intro count h
    have hrest : ∀ x ∈ rest, x.authorId = botId → del x.id ≠ some RATE_LIMIT_SIGNAL :=
      fun x hx => h x (List.mem_cons_of_mem _ hx)
    by_cases hb : m.authorId = botId
    · cases hdel : del m.id with
      | none =>
        obtain ⟨h1, h2, h3, h4, h5⟩ := ih (count + 1) hrest
        refine ⟨?_, ?_, ?_, ?_, ?_⟩ <;>
          simp [processPage, hb, hdel, h1, h2, h3, h4, h5,
                expectedOks_cons_ok hb hdel, expectedFails_cons_ok hb hdel] <;>
          omega
      | some code =>
        have hc : ¬code = RATE_LIMIT_SIGNAL := by
          intro hc
          exact h m (by simp) hb (by rw [hdel, hc])
        obtain ⟨h1, h2, h3, h4, h5⟩ := ih count hrest
        refine ⟨?_, ?_, ?_, ?_, ?_⟩ <;>
          simp [processPage, hb, hdel, hc, h1, h2, h3, h4, h5,
                expectedOks_cons_fail hb hdel, expectedFails_cons_fail hb hdel]
    · obtain ⟨h1, h2, h3, h4, h5⟩ := ih count hrest
      refine ⟨?_, ?_, ?_, ?_, ?_⟩ <;>
        simp [processPage, hb, h1, h2, h3, h4, h5,
              expectedOks_cons_nonbot hb, expectedFails_cons_nonbot hb]

theorem processPage_abort (botId : Nat) (del : Nat → Option Nat) :
    ∀ (p pre : List Msg) (mk : Msg) (post : List Msg) (count : Nat),
      botList botId p = pre ++ mk :: post →
      (∀ m ∈ pre, del m.id = none) →
      del mk.id = some RATE_LIMIT_SIGNAL →
      (processPage botId del p count).2.2 = some "Rate limit exceeded" ∧
      (processPage botId del p count).2.1 = count + pre.length ∧
      okIds (processPage botId del p count).1 = pre.map Msg.id ∧
      failPairs (processPage botId del p count).1 = [] ∧
      delayCount (processPage botId del p count).1 = pre.length := by
  intro p
  induction p with
  | nil =>
    intro pre mk post count hsplit hpre hmk
    simp [botList] at hsplit
  | cons m rest ih =>
    intro pre mk post count hsplit hpre hmk
    by_cases hb : m.authorId = botId
    · rw [botList_cons_bot hb] at hsplit
      cases pre with
      | nil =>
        simp only [List.nil_append, List.cons.injEq] at hsplit
        obtain ⟨rfl, -⟩ := hsplit
        refine ⟨?_, ?_, ?_, ?_, ?_⟩ <;> simp [processPage, hb, hmk]
      | cons q pre' =>
        simp only [List.cons_append, List.cons.injEq] at hsplit
        obtain ⟨rfl, hsplit'⟩ := hsplit
        have hdelm : del m.id = none := hpre m (by simp)
        obtain ⟨h1, h2, h3, h4, h5⟩ :=
          ih pre' mk post (count + 1) hsplit' (fun x hx => hpre x (by simp [hx])) hmk
        refine ⟨?_, ?_, ?_, ?_, ?_⟩ <;>
          simp [processPage, hb, hdelm, h1, h2, h3, h4, h5] <;> omega
    · rw [botList_cons_nonbot hb] at hsplit
      obtain ⟨h1, h2, h3, h4, h5⟩ := ih pre mk post count hsplit hpre hmk
      refine ⟨?_, ?_, ?_, ?_, ?_⟩ <;> simp [processPage, hb, h1, h2, h3, h4, h5]

/-! ### Pagination-loop unfolding -/

@[simp] theorem fetchMessages_def (conv : List Msg) (cursor : Option Nat) (limit : Nat) :
    fetchMessages conv cursor limit = (remainingMsgs conv cursor).take limit := rfl

theorem purgeLoop_zero (botId : Nat) (del : Nat → Option Nat) (conv : List Msg)
    (cursor : Option Nat) (count : Nat) :
    purgeLoop botId del conv 0 cursor count = ([], none) := rfl

theorem purgeLoop_empty (botId : Nat) (del : Nat → Option Nat) (conv : List Msg)
    (fuel : Nat) (cursor : Option Nat) (count : Nat)
    (hp : fetchMessages conv cursor BATCH_SIZE = []) :
    purgeLoop botId del conv (fuel + 1) cursor count =
      ([Event.fetch cursor 0], some (Except.ok count)) := by
  rw [purgeLoop, dif_pos hp]

theorem purgeLoop_step (botId : Nat) (del : Nat → Option Nat) (conv : List Msg)
    (fuel : Nat) (cursor : Option Nat) (count : Nat)
    (hp : ¬fetchMessages conv cursor BATCH_SIZE = []) :
    purgeLoop botId del conv (fuel + 1) cursor count =
      (match (processPage botId del (fetchMessages conv cursor BATCH_SIZE) count).2.2 with
       | some e =>
         (Event.fetch cursor (fetchMessages conv cursor BATCH_SIZE).length ::
            (processPage botId del (fetchMessages conv cursor BATCH_SIZE) count).1,
          some (Except.error e))
       | none =>
         (Event.fetch cursor (fetchMessages conv cursor BATCH_SIZE).length ::
            (processPage botId del (fetchMessages conv cursor BATCH_SIZE) count).1 ++
            (purgeLoop botId del conv fuel
              (some (((fetchMessages conv cursor BATCH_SIZE).getLast hp).id))
              (processPage botId del (fetchMessages conv cursor BATCH_SIZE) count).2.1).1,
          (purgeLoop botId del conv fuel
            (some (((fetchMessages conv cursor BATCH_SIZE).getLast hp).id))
            (processPage botId del (fetchMessages conv cursor BATCH_SIZE) count).2.1).2)) := by
  rw [purgeLoop, dif_neg hp]

/-! ### Loop-level facts under sortedness -/

theorem remainingMsgs_drop_bound (conv : List Msg) (cursor : Option Nat) (fuel : Nat)
    (hp : ¬(remainingMsgs conv cursor).take BATCH_SIZE = [])
    (hf : (remainingMsgs conv cursor).length + 1 ≤ fuel + 1) :
    ((remainingMsgs conv cursor).drop BATCH_SIZE).length + 1 ≤ fuel := by
  have hne : remainingMsgs conv cursor ≠ [] := by
    intro he
    apply hp
    rw [he, List.take_nil]
  have hlen : 1 ≤ (remainingMsgs conv cursor).length := by
    cases hr : remainingMsgs conv cursor with
    | nil => exact absurd hr hne
    | cons a t => simp [hr]
  rw [List.length_drop]
  have hB : BATCH_SIZE = 50 := rfl
  omega

theorem purgeLoop_terminates (botId : Nat) (del : Nat → Option Nat) (conv : List Msg)
    (hs : SortedConv conv) :
    ∀ (fuel : Nat) (cursor : Option Nat) (count : Nat),
      (remainingMsgs conv cursor).length + 1 ≤ fuel →
      (purgeLoop botId del conv fuel cursor count).2 ≠ none := by
  intro fuel
  induction fuel with
  | zero => intro cursor count hf; omega
  | succ fuel ih =>
    intro cursor count hf
    by_cases hp : fetchMessages conv cursor BATCH_SIZE = []
    · rw [purgeLoop_empty botId del conv fuel cursor count hp]
      simp
    · rw [purgeLoop_step botId del conv fuel cursor count hp]
      cases herr : (processPage botId del (fetchMessages conv cursor BATCH_SIZE) count).2.2 with
      | some e => simp
      | none =>
        simp only []
        have hp' : ¬(remainingMsgs conv cursor).take BATCH_SIZE = [] := hp
        have hadv := remainingMsgs_advance conv hs cursor hp'
        have hlen := remainingMsgs_drop_bound conv cursor fuel hp' hf
        rw [← hadv] at hlen
        exact ih _ _ hlen

theorem purgeLoop_noRL (botId : Nat) (del : Nat → Option Nat) (conv : List Msg)
    (hs : SortedConv conv) :
    ∀ (fuel : Nat) (cursor : Option Nat) (count : Nat),
      (remainingMsgs conv cursor).length + 1 ≤ fuel →
      (∀ m ∈ remainingMsgs conv cursor, m.authorId = botId →
        del m.id ≠ some RATE_LIMIT_SIGNAL) →
      (purgeLoop botId del conv fuel cursor count).2 =
        some (Except.ok
          (count + (expectedOks botId del (remainingMsgs conv cursor)).length)) ∧
      okIds (purgeLoop botId del conv fuel cursor count).1 =
        expectedOks botId del (remainingMsgs conv cursor) ∧
      failPairs (purgeLoop botId del conv fuel cursor count).1 =
        expectedFails botId del (remainingMsgs conv cursor) ∧
      delayCount (purgeLoop botId del conv fuel cursor count).1 =
        (expectedOks botId del (remainingMsgs conv cursor)).length ∧
      fetchCount (purgeLoop botId del conv fuel cursor count).1 =
        ((remainingMsgs conv cursor).length + (BATCH_SIZE - 1)) / BATCH_SIZE + 1 := by
  intro fuel
  induction fuel with
  | zero => intro cursor count hf; omega
  | succ fuel ih =>
    intro cursor count hf hnoRL
    by_cases hp : fetchMessages conv cursor BATCH_SIZE = []
    · have hre : remainingMsgs conv cursor = [] := by
        have hx := hp
        simp only [fetchMessages_def] at hx
        rcases List.take_eq_nil_iff.mp hx with h50 | hnil
        · exact absurd h50 (by decide)
        · exact hnil
      rw [purgeLoop_empty botId del conv fuel cursor count hp, hre]
      refine ⟨rfl, rfl, rfl, rfl, ?_⟩
      simp [fetchCount]
      decide
    · have hadv := remainingMsgs_advance conv hs cursor hp
      have hlenb := remainingMsgs_drop_bound conv cursor fuel hp hf
      have hsub : ∀ m ∈ (remainingMsgs conv cursor).take BATCH_SIZE,
          m ∈ remainingMsgs conv cursor := fun m hm => List.take_subset _ _ hm
      obtain ⟨h1, h2, h3, h4, h5⟩ :=
        processPage_noRL botId del ((remainingMsgs conv cursor).take BATCH_SIZE) count
          (fun m hm hb => hnoRL m (hsub m hm) hb)
      have hfe := processPage_fetchEvents botId del
        ((remainingMsgs conv cursor).take BATCH_SIZE) count
      obtain ⟨g1, g2, g3, g4, g5⟩ :=
        ih (some ((((remainingMsgs conv cursor).take BATCH_SIZE).getLast hp).id))
          ((processPage botId del ((remainingMsgs conv cursor).take BATCH_SIZE) count).2.1)
          (by rw [hadv]; exact hlenb)
          (by
            rw [hadv]
            intro m hm hb
            exact hnoRL m (List.drop_subset _ _ hm) hb)
      rw [hadv] at g1 g2 g3 g4 g5
      have hstep1 : (purgeLoop botId del conv (fuel + 1) cursor count).1 =
          Event.fetch cursor ((remainingMsgs conv cursor).take BATCH_SIZE).length ::
            (processPage botId del ((remainingMsgs conv cursor).take BATCH_SIZE) count).1 ++
            (purgeLoop botId del conv fuel
              (some ((((remainingMsgs conv cursor).take BATCH_SIZE).getLast hp).id))
              ((processPage botId del
                ((remainingMsgs conv cursor).take BATCH_SIZE) count).2.1)).1 := by
        rw [purgeLoop_step botId del conv fuel cursor count hp]
        simp only [fetchMessages_def]
        rw [h1]
      have hstep2 : (purgeLoop botId del conv (fuel + 1) cursor count).2 =
          (purgeLoop botId del conv fuel
            (some ((((remainingMsgs conv cursor).take BATCH_SIZE).getLast hp).id))
            ((processPage botId del
              ((remainingMsgs conv cursor).take BATCH_SIZE) count).2.1)).2 := by
        rw [purgeLoop_step botId del conv fuel cursor count hp]
        simp only [fetchMessages_def]
        rw [h1]
      have hsplitlist :
          (remainingMsgs conv cursor).take BATCH_SIZE ++
            (remainingMsgs conv cursor).drop BATCH_SIZE = remainingMsgs conv cursor :=
        List.take_append_drop BATCH_SIZE (remainingMsgs conv cursor)
      have hsplitoks : expectedOks botId del (remainingMsgs conv cursor) =
          expectedOks botId del ((remainingMsgs conv cursor).take BATCH_SIZE) ++
            expectedOks botId del ((remainingMsgs conv cursor).drop BATCH_SIZE) := by
        rw [← expectedOks_append, hsplitlist]
      have hsplitfails : expectedFails botId del (remainingMsgs conv cursor) =
          expectedFails botId del ((remainingMsgs conv cursor).take BATCH_SIZE) ++
            expectedFails botId del ((remainingMsgs conv cursor).drop BATCH_SIZE) := by
        rw [← expectedFails_append, hsplitlist]
      have hrne : 1 ≤ (remainingMsgs conv cursor).length := by
        have hx := hp
        simp only [fetchMessages_def] at hx
        cases hr : remainingMsgs conv cursor with
        | nil => rw [hr, List.take_nil] at hx; exact absurd rfl hx
        | cons a t => simp [hr]
      refine ⟨?_, ?_, ?_, ?_, ?_⟩
      · rw [hstep2, g1, h2, hsplitoks, List.length_append, Nat.add_assoc]
      · rw [hstep1, okIds_append, okIds_cons_fetch, h3, g2, hsplitoks]
      · rw [hstep1, failPairs_append, failPairs_cons_fetch, h4, g3, hsplitfails]
      · rw [hstep1, delayCount_append, delayCount_cons_fetch, h5, g4, hsplitoks,
          List.length_append]
      · rw [hstep1]
        simp only [fetchCount, fetchEvents_append, fetchEvents_cons_fetch, hfe,
          List.nil_append, List.singleton_append, List.length_cons]
        simp only [fetchCount] at g5
        rw [g5, List.length_drop]
        have hB : BATCH_SIZE = 50 := rfl
        rw [hB]
        omega

/-! ### Helpers for the rate-limit abort analysis -/

theorem mem_botList {botId : Nat} {m : Msg} {p : List Msg} :
    m ∈ botList botId p ↔ m ∈ p ∧ m.authorId = botId := by
  simp [botList]

theorem expectedOks_all_ok (botId : Nat) (del : Nat → Option Nat) :
    ∀ p : List Msg, (∀ m ∈ botList botId p, del m.id = none) →
      expectedOks botId del p = (botList botId p).map Msg.id := by
  intro p
  induction p with
  | nil => intro h; simp [botList]
  | cons m rest ih =>
    intro h
    by_cases hb : m.authorId = botId
    · have hdel : del m.id = none := h m (mem_botList.mpr ⟨by simp, hb⟩)
      rw [expectedOks_cons_ok hb hdel, botList_cons_bot hb, List.map_cons]
      rw [ih (fun x hx => h x (by rw [botList_cons_bot hb]; exact List.mem_cons_of_mem _ hx))]
    · rw [expectedOks_cons_nonbot hb, botList_cons_nonbot hb]
      exact ih (fun x hx => h x (by rw [botList_cons_nonbot hb]; exact hx))

theorem expectedFails_all_ok (botId : Nat) (del : Nat → Option Nat) :
    ∀ p : List Msg, (∀ m ∈ botList botId p, del m.id = none) →
      expectedFails botId del p = [] := by
  intro p
  induction p with
  | nil => intro h; simp
  | cons m rest ih =>
    intro h
    by_cases hb : m.authorId = botId
    · have hdel : del m.id = none := h m (mem_botList.mpr ⟨by simp, hb⟩)
      rw [expectedFails_cons_ok hb hdel]
      exact ih (fun x hx => h x (by rw [botList_cons_bot hb]; exact List.mem_cons_of_mem _ hx))
    · rw [expectedFails_cons_nonbot hb]
      exact ih (fun x hx => h x (by rw [botList_cons_nonbot hb]; exact hx))

theorem pagesUntil_mem (r : List Msg) (hne : r ≠ []) (tid : Nat)
    (hmem : tid ∈ (r.take BATCH_SIZE).map Msg.id) : pagesUntil r tid = 1 := by
  cases r with
  | nil => exact absurd rfl hne
  | cons a t =>
    rw [pagesUntil]
    rw [if_pos hmem]

theorem pagesUntil_not_mem (r : List Msg) (hne : r ≠ []) (tid : Nat)
    (hmem : tid ∉ (r.take BATCH_SIZE).map Msg.id) :
    pagesUntil r tid = 1 + pagesUntil (r.drop BATCH_SIZE) tid := by
  cases r with
  | nil => exact absurd rfl hne
  | cons a t =>
    rw [pagesUntil]
    rw [if_neg hmem]

theorem purgeLoop_abortRL (botId : Nat) (del : Nat → Option Nat) (conv : List Msg)
    (hs : SortedConv conv) :
    ∀ (fuel : Nat) (cursor : Option Nat) (count : Nat)
      (pre : List Msg) (mkm : Msg) (post : List Msg),
      botList botId (remainingMsgs conv cursor) = pre ++ mkm :: post →
      (∀ m ∈ pre, del m.id = none) →
      del mkm.id = some RATE_LIMIT_SIGNAL →
      (remainingMsgs conv cursor).length + 1 ≤ fuel →
      (purgeLoop botId del conv fuel cursor count).2 =
        some (Except.error "Rate limit exceeded") ∧
      okIds (purgeLoop botId del conv fuel cursor count).1 = pre.map Msg.id ∧
      failPairs (purgeLoop botId del conv fuel cursor count).1 = [] ∧
      delayCount (purgeLoop botId del conv fuel cursor count).1 = pre.length ∧
      (purgeLoop botId del conv fuel cursor count).2.isSome = true ∧
      fetchCount (purgeLoop botId del conv fuel cursor count).1 =
        pagesUntil (remainingMsgs conv cursor) mkm.id := by
  intro fuel
  induction fuel with
  | zero => intro cursor count pre mkm post hsplit hpre hmk hf; omega
  | succ fuel ih =>
    intro cursor count pre mkm post hsplit hpre hmk hf
    have hrne : remainingMsgs conv cursor ≠ [] := by
      intro he
      rw [he] at hsplit
      simp [botList] at hsplit
    by_cases hp : fetchMessages conv cursor BATCH_SIZE = []
    · exfalso
      have hx := hp
      simp only [fetchMessages_def] at hx
      rcases List.take_eq_nil_iff.mp hx with h50 | hnil
      · exact absurd h50 (by decide)
      · exact hrne hnil
    · have hadv := remainingMsgs_advance conv hs cursor hp
      have hlenb := remainingMsgs_drop_bound conv cursor fuel hp hf
      have hbl : botList botId (remainingMsgs conv cursor) =
          botList botId ((remainingMsgs conv cursor).take BATCH_SIZE) ++
            botList botId ((remainingMsgs conv cursor).drop BATCH_SIZE) := by
        rw [← botList_append, List.take_append_drop]
      rw [hbl] at hsplit
      have hcross := sortedConv_take_lt_drop
        (remainingMsgs_sorted conv hs cursor) BATCH_SIZE
      have hlater : ∀ a' : List Msg,
          pre = botList botId ((remainingMsgs conv cursor).take BATCH_SIZE) ++ a' →
          botList botId ((remainingMsgs conv cursor).drop BATCH_SIZE) =
            a' ++ mkm :: post →
          (purgeLoop botId del conv (fuel + 1) cursor count).2 =
            some (Except.error "Rate limit exceeded") ∧
          okIds (purgeLoop botId del conv (fuel + 1) cursor count).1 = pre.map Msg.id ∧
          failPairs (purgeLoop botId del conv (fuel + 1) cursor count).1 = [] ∧
          delayCount (purgeLoop botId del conv (fuel + 1) cursor count).1 = pre.length ∧
          (purgeLoop botId del conv (fuel + 1) cursor count).2.isSome = true ∧
          fetchCount (purgeLoop botId del conv (fuel + 1) cursor count).1 =
            pagesUntil (remainingMsgs conv cursor) mkm.id := by
        intro a' hpre1 hdrop1
        have hpageok : ∀ m ∈ botList botId ((remainingMsgs conv cursor).take BATCH_SIZE),
            del m.id = none := by
          intro m hm
          exact hpre m (by rw [hpre1]; exact List.mem_append_left _ hm)
        have hnoRLpage : ∀ m ∈ (remainingMsgs conv cursor).take BATCH_SIZE,
            m.authorId = botId → del m.id ≠ some RATE_LIMIT_SIGNAL := by
          intro m hm hb hc
          rw [hpageok m (mem_botList.mpr ⟨hm, hb⟩)] at hc
          cases hc
        obtain ⟨h1, h2, h3, h4, h5⟩ :=
          processPage_noRL botId del ((remainingMsgs conv cursor).take BATCH_SIZE) count
            hnoRLpage
        have hfe := processPage_fetchEvents botId del
          ((remainingMsgs conv cursor).take BATCH_SIZE) count
        have hprev : ∀ m ∈ a', del m.id = none := by
          intro m hm
          exact hpre m (by rw [hpre1]; exact List.mem_append_right _ hm)
        obtain ⟨g1, g2, g3, g4, g6, g5⟩ :=
          ih (some ((((remainingMsgs conv cursor).take BATCH_SIZE).getLast hp).id))
            ((processPage botId del ((remainingMsgs conv cursor).take BATCH_SIZE) count).2.1)
            a' mkm post (by rw [hadv]; exact hdrop1) hprev hmk
            (by rw [hadv]; exact hlenb)
        rw [hadv] at g5
        have hstep1 : (purgeLoop botId del conv (fuel + 1) cursor count).1 =
            (Event.fetch cursor ((remainingMsgs conv cursor).take BATCH_SIZE).length ::
              (processPage botId del ((remainingMsgs conv cursor).take BATCH_SIZE) count).1) ++
              (purgeLoop botId del conv fuel
                (some ((((remainingMsgs conv cursor).take BATCH_SIZE).getLast hp).id))
                ((processPage botId del
                  ((remainingMsgs conv cursor).take BATCH_SIZE) count).2.1)).1 := by
          rw [purgeLoop_step botId del conv fuel cursor count hp]
          simp only [fetchMessages_def]
          rw [h1]
        have hstep2 : (purgeLoop botId del conv (fuel + 1) cursor count).2 =
            (purgeLoop botId del conv fuel
              (some ((((remainingMsgs conv cursor).take BATCH_SIZE).getLast hp).id))
              ((processPage botId del
                ((remainingMsgs conv cursor).take BATCH_SIZE) count).2.1)).2 := by
          rw [purgeLoop_step botId del conv fuel cursor count hp]
          simp only [fetchMessages_def]
          rw [h1]
        have hoks := expectedOks_all_ok botId del
          ((remainingMsgs conv cursor).take BATCH_SIZE) hpageok
        have hfails := expectedFails_all_ok botId del
          ((remainingMsgs conv cursor).take BATCH_SIZE) hpageok
        have hmknotin : mkm.id ∉ ((remainingMsgs conv cursor).take BATCH_SIZE).map Msg.id := by
          intro hmem
          rcases List.mem_map.mp hmem with ⟨x, hx, hxid⟩
          have hmkdrop : mkm ∈ (remainingMsgs conv cursor).drop BATCH_SIZE := by
            have : mkm ∈ botList botId ((remainingMsgs conv cursor).drop BATCH_SIZE) := by
              rw [hdrop1]
              exact List.mem_append_right _ (List.mem_cons_self _ _)
            exact (mem_botList.mp this).1
          have := hcross x hx mkm hmkdrop
          omega
        refine ⟨?_, ?_, ?_, ?_, ?_, ?_⟩
        · rw [hstep2, g1]
        · rw [hstep1, okIds_append, okIds_cons_fetch, h3, g2, hoks, hpre1,
            List.map_append]
        · rw [hstep1, failPairs_append, failPairs_cons_fetch, h4, g3, hfails,
            List.nil_append]
        · rw [hstep1, delayCount_append, delayCount_cons_fetch, h5, g4, hoks, hpre1,
            List.length_append, List.length_map]
        · rw [hstep2, g1]
          rfl
        · rw [hstep1]
          simp only [fetchCount, fetchEvents_append, fetchEvents_cons_fetch, hfe,
            List.nil_append, List.singleton_append, List.length_cons]
          simp only [fetchCount] at g5
          rw [g5, pagesUntil_not_mem (remainingMsgs conv cursor) hrne mkm.id hmknotin]
          omega
      rcases List.append_eq_append_iff.mp hsplit with ⟨a', ha1, ha2⟩ | ⟨c', hc1, hc2⟩
      · exact hlater a' ha1 ha2
      · cases c' with
        | nil =>
          exact hlater [] (by simp [hc1]) (by simpa using hc2.symm)
        | cons q c'' =>
          have hq : q = mkm := by
            have := hc2
            simp only [List.cons_append, List.cons.injEq] at this
            exact this.1.symm
          subst hq
          have hc2' : post = c'' ++ botList botId
              ((remainingMsgs conv cursor).drop BATCH_SIZE) := by
            have := hc2
            simp only [List.cons_append, List.cons.injEq] at this
            exact this.2
          obtain ⟨p1, p2, p3, p4, p5⟩ :=
            processPage_abort botId del ((remainingMsgs conv cursor).take BATCH_SIZE)
              pre q c'' count hc1 hpre hmk
          have hfe := processPage_fetchEvents botId del
            ((remainingMsgs conv cursor).take BATCH_SIZE) count
          have hstep1 : (purgeLoop botId del conv (fuel + 1) cursor count).1 =
              Event.fetch cursor ((remainingMsgs conv cursor).take BATCH_SIZE).length ::
                (processPage botId del
                  ((remainingMsgs conv cursor).take BATCH_SIZE) count).1 := by
            rw [purgeLoop_step botId del conv fuel cursor count hp]
            simp only [fetchMessages_def]
            rw [p1]
          have hstep2 : (purgeLoop botId del conv (fuel + 1) cursor count).2 =
              some (Except.error "Rate limit exceeded") := by
            rw [purgeLoop_step botId del conv fuel cursor count hp]
            simp only [fetchMessages_def]
            rw [p1]
          have hmkin : q.id ∈ ((remainingMsgs conv cursor).take BATCH_SIZE).map Msg.id := by
            apply List.mem_map_of_mem
            have : q ∈ botList botId ((remainingMsgs conv cursor).take BATCH_SIZE) := by
              rw [hc1]
              exact List.mem_append_right _ (List.mem_cons_self _ _)
            exact (mem_botList.mp this).1
          refine ⟨hstep2, ?_, ?_, ?_, ?_, ?_⟩
          · rw [hstep1, okIds_cons_fetch, p3]
          · rw [hstep1, failPairs_cons_fetch, p4]
          · rw [hstep1, delayCount_cons_fetch, p5]
          · rw [hstep2]
            rfl
          · rw [hstep1]
            simp only [fetchCount, fetchEvents_cons_fetch, hfe, List.length_cons,
              List.length_nil]
            rw [pagesUntil_mem (remainingMsgs conv cursor) hrne q.id hmkin]

/-! ### Top-level purge-run characterizations -/

theorem remainingMsgs_none (conv : List Msg) : remainingMsgs conv none = conv := rfl

theorem remainingMsgs_subset (conv : List Msg) (cursor : Option Nat) :
    ∀ m ∈ remainingMsgs conv cursor, m ∈ conv := by
  cases cursor with
  | none => intro m hm; exact hm
  | some c => intro m hm; exact List.mem_of_mem_filter hm

theorem deleteBot_fst (botId : Nat) (del : Nat → Option Nat) (conv : List Msg) :
    (deleteBotMessagesFromDM botId del conv).1 =
      (purgeLoop botId del conv (conv.length + 1) none 0).1 := rfl

theorem deleteBot_snd (botId : Nat) (del : Nat → Option Nat) (conv : List Msg) :
    (deleteBotMessagesFromDM botId del conv).2 =
      (purgeLoop botId del conv (conv.length + 1) none 0).2.map
        (fun res =>
          match res with
          | Except.ok n => Except.ok n
          | Except.error e => Except.error ("Failed to delete messages: " ++ e)) := rfl

theorem deleteBot_noRL (botId : Nat) (del : Nat → Option Nat) (conv : List Msg)
    (hs : SortedConv conv)
    (hnoRL : ∀ m ∈ conv, m.authorId = botId → del m.id ≠ some RATE_LIMIT_SIGNAL) :
    (deleteBotMessagesFromDM botId del conv).2 =
      some (Except.ok (expectedOks botId del conv).length) ∧
    okIds (deleteBotMessagesFromDM botId del conv).1 = expectedOks botId del conv ∧
    failPairs (deleteBotMessagesFromDM botId del conv).1 = expectedFails botId del conv ∧
    delayCount (deleteBotMessagesFromDM botId del conv).1 =
      (expectedOks botId del conv).length ∧
    fetchCount (deleteBotMessagesFromDM botId del conv).1 =
      (conv.length + (BATCH_SIZE - 1)) / BATCH_SIZE + 1 := by
  obtain ⟨g1, g2, g3, g4, g5⟩ :=
    purgeLoop_noRL botId del conv hs (conv.length + 1) none 0 (by
      rw [remainingMsgs_none]) (by rw [remainingMsgs_none]; exact hnoRL)
  rw [remainingMsgs_none] at g1 g2 g3 g4 g5
  rw [Nat.zero_add] at g1
  refine ⟨?_, ?_, ?_, ?_, ?_⟩
  · rw [deleteBot_snd, g1]
    rfl
  · rw [deleteBot_fst, g2]
  · rw [deleteBot_fst, g3]
  · rw [deleteBot_fst, g4]
  · rw [deleteBot_fst, g5]

theorem deleteBot_abortRL (botId : Nat) (del : Nat → Option Nat) (conv : List Msg)
    (hs : SortedConv conv) (pre : List Msg) (mkm : Msg) (post : List Msg)
    (hsplit : botList botId conv = pre ++ mkm :: post)
    (hpre : ∀ m ∈ pre, del m.id = none)
    (hmk : del mkm.id = some RATE_LIMIT_SIGNAL) :
    (deleteBotMessagesFromDM botId del conv).2 =
      some (Except.error "Failed to delete messages: Rate limit exceeded") ∧
    okIds (deleteBotMessagesFromDM botId del conv).1 = pre.map Msg.id ∧
    failPairs (deleteBotMessagesFromDM botId del conv).1 = [] ∧
    delayCount (deleteBotMessagesFromDM botId del conv).1 = pre.length ∧
    fetchCount (deleteBotMessagesFromDM botId del conv).1 = pagesUntil conv mkm.id := by
  obtain ⟨g1, g2, g3, g4, g6, g5⟩ :=
    purgeLoop_abortRL botId del conv hs (conv.length + 1) none 0 pre mkm post
      (by rw [remainingMsgs_none]; exact hsplit) hpre hmk (by rw [remainingMsgs_none])
  rw [remainingMsgs_none] at g5
  refine ⟨?_, ?_, ?_, ?_, ?_⟩
  · rw [deleteBot_snd, g1]
    rfl
  · rw [deleteBot_fst, g2]
  · rw [deleteBot_fst, g3]
  · rw [deleteBot_fst, g4]
  · rw [deleteBot_fst, g5]

theorem deleteBot_terminates (botId : Nat) (del : Nat → Option Nat) (conv : List Msg)
    (hs : SortedConv conv) :
    (deleteBotMessagesFromDM botId del conv).2 ≠ none := by
  have ht := purgeLoop_terminates botId del conv hs (conv.length + 1) none 0
    (by rw [remainingMsgs_none])
  rw [deleteBot_snd]
  cases hres : (purgeLoop botId del conv (conv.length + 1) none 0).2 with
  | none => exact absurd hres ht
  | some v => simp

theorem purgeLoop_cursor_provenance (botId : Nat) (del : Nat → Option Nat)
    (conv : List Msg) :
    ∀ (fuel : Nat) (cursor : Option Nat) (count : Nat),
      (cursor = none ∨ ∃ c0 ∈ conv.map Msg.id, cursor = some c0) →
      ∀ c n, (some c, n) ∈ fetchEvents (purgeLoop botId del conv fuel cursor count).1 →
        c ∈ conv.map Msg.id := by
  intro fuel
  induction fuel with
  | zero =>
    intro cursor count hc c n hmem
    rw [purgeLoop_zero] at hmem
    simp [fetchEvents] at hmem
  | succ fuel ih =>
    intro cursor count hc c n hmem
    have hfromcur : cursor = some c → c ∈ conv.map Msg.id := by
      intro hcur
      rcases hc with rfl | ⟨c0, hc0, rfl⟩
      · cases hcur
      · rw [Option.some.injEq] at hcur
        rw [← hcur]
        exact hc0
    have hnewcur : ∀ hp : ¬fetchMessages conv cursor BATCH_SIZE = [],
        (((remainingMsgs conv cursor).take BATCH_SIZE).getLast hp).id ∈
          conv.map Msg.id := by
      intro hp
      apply List.mem_map_of_mem
      exact remainingMsgs_subset conv cursor _
        (List.take_subset _ _ (List.getLast_mem hp))
    by_cases hp : fetchMessages conv cursor BATCH_SIZE = []
    · rw [purgeLoop_empty botId del conv fuel cursor count hp] at hmem
      simp only [fetchEvents_cons_fetch, fetchEvents_nil, List.mem_singleton,
        Prod.mk.injEq] at hmem
      exact hfromcur hmem.1.symm
    · rw [purgeLoop_step botId del conv fuel cursor count hp] at hmem
      cases herr : (processPage botId del (fetchMessages conv cursor BATCH_SIZE) count).2.2 with
      | some e =>
        rw [herr] at hmem
        simp only [fetchEvents_cons_fetch] at hmem
        have hfe := processPage_fetchEvents botId del
          (fetchMessages conv cursor BATCH_SIZE) count
        simp only [fetchMessages_def] at hfe
        simp only [fetchMessages_def, hfe, List.mem_cons, Prod.mk.injEq] at hmem
        rcases hmem with ⟨h1, -⟩ | hmem2
        · exact hfromcur h1.symm
        · simp [fetchEvents] at hmem2
      | none =>
        rw [herr] at hmem
        simp only [fetchMessages_def] at hmem
        have hfe := processPage_fetchEvents botId del
          ((remainingMsgs conv cursor).take BATCH_SIZE) count
        simp only [fetchEvents_append, fetchEvents_cons_fetch, hfe, List.nil_append,
          List.singleton_append, List.mem_cons, Prod.mk.injEq] at hmem
        rcases hmem with ⟨h1, -⟩ | hmem2
        · exact hfromcur h1.symm
        · exact ih _ _ (Or.inr ⟨_, hnewcur hp, rfl⟩) c n hmem2

/-! ### Substring lemmas -/

theorem hasSub_nil_pat (l : List Char) : hasSub [] l = true := by
  induction l with
  | nil => rfl
  | cons d l ih => simp [hasSub, matchesAt]

theorem matchesAt_append_self (p r : List Char) : matchesAt p (p ++ r) = true := by
  induction p with
  | nil => rfl
  | cons c p ih => simp [matchesAt, ih]

theorem matchesAt_extend (p : List Char) :
    ∀ l r, matchesAt p l = true → matchesAt p (l ++ r) = true := by
  induction p with
  | nil => intro l r h; rfl
  | cons c p ih =>
    intro l r h
    cases l with
    | nil => simp [matchesAt] at h
    | cons d l' =>
      simp only [matchesAt, Bool.and_eq_true] at h
      simp only [List.cons_append, matchesAt, Bool.and_eq_true]
      exact ⟨h.1, ih l' r h.2⟩

theorem hasSub_of_matchesAt (p l : List Char) (h : matchesAt p l = true) :
    hasSub p l = true := by
  cases l with
  | nil =>
    cases p with
    | nil => rfl
    | cons c p => simp [matchesAt] at h
  | cons d l' => simp [hasSub, h]

theorem hasSub_cons (p : List Char) (d : Char) (l : List Char)
    (h : hasSub p l = true) : hasSub p (d :: l) = true := by
  simp [hasSub, h]

theorem hasSub_append_right (p : List Char) (s l : List Char)
    (h : hasSub p l = true) : hasSub p (s ++ l) = true := by
  induction s with
  | nil => exact h
  | cons d s ih => exact hasSub_cons p d (s ++ l) ih

theorem hasSub_append_left (p : List Char) :
    ∀ l r, hasSub p l = true → hasSub p (l ++ r) = true := by
  intro l
  induction l with
  | nil =>
    intro r h
    cases p with
    | nil => exact hasSub_nil_pat r
    | cons c p => simp [hasSub, matchesAt] at h
  | cons d l' ih =>
    intro r h
    simp only [hasSub, Bool.or_eq_true] at h
    rcases h with h | h
    · exact hasSub_of_matchesAt p _ (by
        simpa using matchesAt_extend p (d :: l') r h)
    · exact hasSub_cons p d (l' ++ r) (ih r h)

theorem hasSub_append_self (p r : List Char) : hasSub p (p ++ r) = true :=
  hasSub_of_matchesAt p (p ++ r) (matchesAt_append_self p r)

theorem joinComma_mem_sub (k : String) :
    ∀ l : List String, k ∈ l → hasSub k.data (joinComma l).data = true := by
  intro l
  induction l with
  | nil => intro h; cases h
  | cons x xs ih =>
    intro h
    cases xs with
    | nil =>
      rcases List.mem_singleton.mp h with rfl
      have := hasSub_append_self k.data []
      simpa using this
    | cons y ys =>
      rcases List.mem_cons.mp h with rfl | hmem
      · show hasSub k.data (k ++ ", " ++ joinComma (y :: ys)).data = true
        rw [String.append_assoc, String.data_append]
        exact hasSub_append_self k.data _
      · show hasSub k.data (x ++ ", " ++ joinComma (y :: ys)).data = true
        rw [String.append_assoc, String.data_append]
        exact hasSub_append_right k.data x.data _ (by
          rw [String.data_append]
          exact hasSub_append_right k.data _ _ (ih hmem))

/-! ### Validator-level lemmas -/

theorem validateEnvironment_ok (env : String → Option String)
    (h : missingVars env = []) : validateEnvironment env = Except.ok () := by
  simp [validateEnvironment, h]

theorem validateEnvironment_error (env : String → Option String)
    (h : missingVars env ≠ []) :
    validateEnvironment env = Except.error (envErrorMsg env) := by
  have hpos : 0 < (missingVars env).length := List.length_pos.mpr h
  simp [validateEnvironment, hpos]

theorem envErrorMsg_mentions (env : String → Option String) (k : String)
    (h : k ∈ missingVars env) : strIncludes (envErrorMsg env) k = true := by
  show hasSub k.data
    ("Missing required environment variables: " ++ joinComma (missingVars env)).data = true
  rw [String.data_append]
  exact hasSub_append_right k.data _ _ (joinComma_mem_sub k _ h)

theorem envErrorMsg_has_envvars (env : String → Option String) :
    strIncludes (envErrorMsg env) "environment variables" = true := by
  show hasSub ("environment variables").data
    ("Missing required environment variables: " ++ joinComma (missingVars env)).data = true
  rw [String.data_append]
  exact hasSub_append_left _ _ _ (by decide)

/-! ### Claim theorems -/

/-- C1: for empty or whitespace-only standard input the sender fails before a
chat client is constructed, but it exits with `DISCORD_ERROR` (3), not the
empty-input code `NO_MESSAGE` (1): the catch block selects the exit code by
searching the message text, and "No message input received" contains neither
"environment variables" nor "stdin".  This evaluates the embedded sender at
the failing input. -/
theorem c1_empty_input_wrong_exit_code :
    (∀ net, senderMain
        (fun k => if k = "BOT_TOKEN" then some "token" else
          if k = "DM_USER_ID" then some "42" else none) " \n " net =
      ([SAction.logErr "No message input received"], SENDER_DISCORD_ERROR)) ∧
    SAction.createClient ∉ [SAction.logErr "No message input received"] ∧
    SENDER_DISCORD_ERROR ≠ SENDER_NO_MESSAGE ∧
    senderExitCode "No message input received" = SENDER_DISCORD_ERROR := by
  refine ⟨fun net => rfl, by decide, by decide, by decide⟩

/-- C10: when the trimmed input is empty the `end` handler of `readStdin`
issues the rejection first and the resolution after it; the promise settles
once, with the first settlement, so the result is deterministically the
empty-input rejection and never a success value. -/
theorem c10_reject_wins (input : String) (h : jsTrim input = "") :
    endHandlerSettlements input =
      [Except.error "No message input received", Except.ok ""] ∧
    readStdinResult input = Except.error "No message input received" := by
  refine ⟨?_, ?_⟩
  · simp [endHandlerSettlements, h]
  · simp [readStdinResult, endHandlerSettlements, h]

/-- C10 witness: concrete whitespace-only input. -/
theorem c10_reject_wins_witness :
    jsTrim "  \n " = "" ∧
    readStdinResult "  \n " = Except.error "No message input received" :=
  ⟨by decide, (c10_reject_wins "  \n " (by decide)).2⟩

/-- C6: the environment validator returns normally when no key is missing;
otherwise it fails with a message naming every missing key, the sender run
exits with its configuration code 2 and the purger run with its configuration
code 1, and the trace shows no client construction or network action. -/
theorem c6_validator_complete (env : String → Option String) :
    (missingVars env = [] → validateEnvironment env = Except.ok ()) ∧
    (missingVars env ≠ [] →
      validateEnvironment env = Except.error (envErrorMsg env) ∧
      (∀ k ∈ missingVars env, strIncludes (envErrorMsg env) k = true) ∧
      (∀ input net, senderMain env input net =
        ([SAction.logErr (envErrorMsg env)], SENDER_MISSING_ENV)) ∧
      (∀ pnet botId del conv, purgerMain env pnet botId del conv =
        ([SAction.logErr (envErrorMsg env)], PURGER_MISSING_ENV)) ∧
      SAction.createClient ∉ [SAction.logErr (envErrorMsg env)] ∧
      SAction.login ∉ [SAction.logErr (envErrorMsg env)]) := by
  refine ⟨fun h => validateEnvironment_ok env h, fun h => ?_⟩
  have hv := validateEnvironment_error env h
  have hinc := envErrorMsg_has_envvars env
  refine ⟨hv, fun k hk => envErrorMsg_mentions env k hk, ?_, ?_, by simp, by simp⟩
  · intro input net
    simp [senderMain, hv, senderExitCode, hinc]
  · intro pnet botId del conv
    simp [purgerMain, hv, purgerCatchExitCode, hinc]

/-- C6 witness: with both keys absent the validator names both keys and both
runs exit with their configuration codes without constructing a client. -/
theorem c6_validator_complete_witness :
    missingVars (fun _ => none) ≠ [] ∧
    validateEnvironment (fun _ => none) =
      Except.error (envErrorMsg (fun _ => none)) ∧
    strIncludes (envErrorMsg (fun _ => none)) "BOT_TOKEN" = true ∧
    strIncludes (envErrorMsg (fun _ => none)) "DM_USER_ID" = true ∧
    senderMain (fun _ => none) "hello" (SenderNet.ready none) =
      ([SAction.logErr (envErrorMsg (fun _ => none))], SENDER_MISSING_ENV) ∧
    purgerMain (fun _ => none) PurgerNet.ready 1 (fun _ => none) [] =
      ([SAction.logErr (envErrorMsg (fun _ => none))], PURGER_MISSING_ENV) := by
  have h := (c6_validator_complete (fun _ => none)).2 (by decide)
  exact ⟨by decide, h.1, h.2.1 "BOT_TOKEN" (by decide), h.2.1 "DM_USER_ID" (by decide),
    h.2.2.1 "hello" (SenderNet.ready none),
    h.2.2.2.1 PurgerNet.ready 1 (fun _ => none) []⟩

/-! ### All-bot conversation helpers -/

theorem botList_all (botId : Nat) (conv : List Msg)
    (hall : ∀ m ∈ conv, m.authorId = botId) : botList botId conv = conv := by
  rw [botList, List.filter_eq_self]
  intro m hm
  simp [hall m hm]

theorem sortedConv_map_id_nodup (conv : List Msg) (hs : SortedConv conv) :
    (conv.map Msg.id).Nodup := by
  have hpw : List.Pairwise (fun x y : Nat => y < x) (conv.map Msg.id) :=
    List.pairwise_map.mpr hs
  exact hpw.imp (fun h => ne_of_gt h)

/-- C2 counterexample: a conversation holding a single bot message.  The code
issues two page fetches (the trailing empty fetch ends the loop) although
`ceil(1/50) = 1`, and it waits the fixed delay once — after the only
deletion — although there are no consecutive deletions to separate. -/
theorem c2_counterexample :
    fetchCount (deleteBotMessagesFromDM 1 (fun _ => none) [⟨10, 1⟩]).1 = 2 ∧
    (1 + (BATCH_SIZE - 1)) / BATCH_SIZE = 1 ∧
    (2 : Nat) ≠ 1 ∧
    delayCount (deleteBotMessagesFromDM 1 (fun _ => none) [⟨10, 1⟩]).1 = 1 ∧
    (deleteBotMessagesFromDM 1 (fun _ => none) [⟨10, 1⟩]).2 =
      some (Except.ok 1) := by
  refine ⟨by decide, by decide, by decide, by decide, by decide⟩

/-- C2 (amended): on a conversation of `N` bot-authored messages with no
deletion faults, the purge issues `ceil(N/50) + 1` page fetches (the final
one returns empty and ends the loop), deletes each message exactly once in
order, waits the fixed delay after every successful deletion (hence between
consecutive ones), and returns `deletedCount = N`. -/
theorem c2_full_purge (botId : Nat) (del : Nat → Option Nat) (conv : List Msg)
    (hs : SortedConv conv)
    (hall : ∀ m ∈ conv, m.authorId = botId)
    (hok : ∀ m ∈ conv, del m.id = none) :
    (deleteBotMessagesFromDM botId del conv).2 = some (Except.ok conv.length) ∧
    okIds (deleteBotMessagesFromDM botId del conv).1 = conv.map Msg.id ∧
    (okIds (deleteBotMessagesFromDM botId del conv).1).Nodup ∧
    delayCount (deleteBotMessagesFromDM botId del conv).1 = conv.length ∧
    failPairs (deleteBotMessagesFromDM botId del conv).1 = [] ∧
    fetchCount (deleteBotMessagesFromDM botId del conv).1 =
      (conv.length + (BATCH_SIZE - 1)) / BATCH_SIZE + 1 := by
  have hnoRL : ∀ m ∈ conv, m.authorId = botId → del m.id ≠ some RATE_LIMIT_SIGNAL := by
    intro m hm _ hc
    rw [hok m hm] at hc
    cases hc
  have hba := botList_all botId conv hall
  have hoks : expectedOks botId del conv = conv.map Msg.id := by
    rw [expectedOks_all_ok botId del conv (by rw [hba]; exact hok), hba]
  have hfails : expectedFails botId del conv = [] :=
    expectedFails_all_ok botId del conv (by rw [hba]; exact hok)
  obtain ⟨g1, g2, g3, g4, g5⟩ := deleteBot_noRL botId del conv hs hnoRL
  rw [hoks] at g1 g2 g4
  rw [hfails] at g3
  rw [List.length_map] at g1 g4
  exact ⟨g1, g2, by rw [g2]; exact sortedConv_map_id_nodup conv hs, g4, g3, g5⟩

/-- C2 witness: two bot messages, no faults. -/
theorem c2_full_purge_witness :
    (deleteBotMessagesFromDM 1 (fun _ => none) [⟨10, 1⟩, ⟨9, 1⟩]).2 =
      some (Except.ok 2) ∧
    okIds (deleteBotMessagesFromDM 1 (fun _ => none) [⟨10, 1⟩, ⟨9, 1⟩]).1 = [10, 9] ∧
    delayCount (deleteBotMessagesFromDM 1 (fun _ => none) [⟨10, 1⟩, ⟨9, 1⟩]).1 = 2 ∧
    fetchCount (deleteBotMessagesFromDM 1 (fun _ => none) [⟨10, 1⟩, ⟨9, 1⟩]).1 = 2 := by
  have h := c2_full_purge 1 (fun _ => none) [⟨10, 1⟩, ⟨9, 1⟩] (by decide) (by decide)
    (fun m _ => rfl)
  exact ⟨h.1, h.2.1, h.2.2.2.1, h.2.2.2.2.2⟩

/-- C4 counterexample: a conversation with zero bot messages but one user
message: `deletedCount = 0`, yet the run issues two page fetches, not one. -/
theorem c4_counterexample :
    fetchCount (deleteBotMessagesFromDM 1 (fun _ => none) [⟨10, 2⟩]).1 = 2 ∧
    (2 : Nat) ≠ 1 ∧
    (deleteBotMessagesFromDM 1 (fun _ => none) [⟨10, 2⟩]).2 =
      some (Except.ok 0) := by
  refine ⟨by decide, by decide, by decide⟩

/-- C4 (amended): on a conversation with zero bot-authored messages the purge
returns `deletedCount = 0` with no deletions and no delays; it issues
`ceil(M/50) + 1` fetches for `M` total messages, which is exactly one page
fetch precisely when the conversation is entirely empty. -/
theorem c4_zero_bot (botId : Nat) (del : Nat → Option Nat) (conv : List Msg)
    (hs : SortedConv conv)
    (hnone : ∀ m ∈ conv, m.authorId ≠ botId) :
    (deleteBotMessagesFromDM botId del conv).2 = some (Except.ok 0) ∧
    okIds (deleteBotMessagesFromDM botId del conv).1 = [] ∧
    delayCount (deleteBotMessagesFromDM botId del conv).1 = 0 ∧
    fetchCount (deleteBotMessagesFromDM botId del conv).1 =
      (conv.length + (BATCH_SIZE - 1)) / BATCH_SIZE + 1 ∧
    (conv = [] →
      deleteBotMessagesFromDM botId del conv =
        ([Event.fetch none 0], some (Except.ok 0))) := by
  have hnoRL : ∀ m ∈ conv, m.authorId = botId → del m.id ≠ some RATE_LIMIT_SIGNAL := by
    intro m hm hb
    exact absurd hb (hnone m hm)
  have hoks : expectedOks botId del conv = [] := by
    rw [expectedOks, List.filterMap_eq_nil]
    intro m hm
    simp [hnone m hm]
  obtain ⟨g1, g2, g3, g4, g5⟩ := deleteBot_noRL botId del conv hs hnoRL
  rw [hoks] at g1 g2 g4
  refine ⟨g1, g2, g4, g5, ?_⟩
  rintro rfl
  rfl

/-- C4 witness: the empty conversation yields one empty fetch and count 0. -/
theorem c4_zero_bot_witness :
    (deleteBotMessagesFromDM 1 (fun _ => none) []).2 = some (Except.ok 0) ∧
    deleteBotMessagesFromDM 1 (fun _ => none) [] =
      ([Event.fetch none 0], some (Except.ok 0)) ∧
    fetchCount (deleteBotMessagesFromDM 1 (fun _ => none) []).1 = 1 := by
  have h := c4_zero_bot 1 (fun _ => none) [] (by decide) (by decide)
  exact ⟨h.1, h.2.2.2.2 rfl, by decide⟩

/-- C7: on a sorted (newest-first, strictly decreasing identifiers)
conversation the purge loop terminates — the run bounded by
`conv.length + 1` iterations produces a result; the cursor strictly
decreases on every non-empty iteration (the last message of a page fetched
before cursor `c` has identifier strictly below `c`); and an empty fetch
ends the loop immediately. -/
theorem c7_termination (botId : Nat) (del : Nat → Option Nat) (conv : List Msg)
    (hs : SortedConv conv) :
    (deleteBotMessagesFromDM botId del conv).2 ≠ none ∧
    (∀ c : Nat, ∀ h : fetchMessages conv (some c) BATCH_SIZE ≠ [],
      ((fetchMessages conv (some c) BATCH_SIZE).getLast h).id < c) ∧
    (∀ (cursor : Option Nat) (count fuel : Nat),
      fetchMessages conv cursor BATCH_SIZE = [] →
      purgeLoop botId del conv (fuel + 1) cursor count =
        ([Event.fetch cursor 0], some (Except.ok count))) := by
  refine ⟨deleteBot_terminates botId del conv hs, ?_, ?_⟩
  · intro c h
    have hmem : (fetchMessages conv (some c) BATCH_SIZE).getLast h ∈
        remainingMsgs conv (some c) :=
      List.take_subset _ _ (List.getLast_mem h)
    have := (List.mem_filter.mp hmem).2
    simpa using this
  · intro cursor count fuel hp
    exact purgeLoop_empty botId del conv fuel cursor count hp

/-- C7 witness: a concrete sorted two-message conversation; the run yields a
result, the cursor advance on the first page is strictly smaller, and an
empty fetch returns immediately. -/
theorem c7_termination_witness :
    (deleteBotMessagesFromDM 1 (fun _ => none) [⟨5, 1⟩, ⟨3, 2⟩]).2 ≠ none ∧
    ((fetchMessages [⟨5, 1⟩, ⟨3, 2⟩] (some 5) BATCH_SIZE).getLast (by decide)).id < 5 ∧
    purgeLoop 1 (fun _ => none) [⟨5, 1⟩, ⟨3, 2⟩] 1 (some 3) 7 =
      ([Event.fetch (some 3) 0], some (Except.ok 7)) := by
  have h := c7_termination 1 (fun _ => none) [⟨5, 1⟩, ⟨3, 2⟩] (by decide)
  exact ⟨h.1, h.2.1 5 (by decide), h.2.2 (some 3) 7 0 (by decide)⟩

/-- C9: the empty-page check strictly precedes the cursor advance: an empty
fetch ends the loop at once, performing no deletion, no delay and no cursor
update; and every cursor ever used by a later fetch of a full run is the
identifier of a message of the conversation, i.e. it was produced from the
last message of a previously fetched non-empty page — the advance never
operates on an empty page. -/
theorem c9_cursor_advance_guard (botId : Nat) (del : Nat → Option Nat)
    (conv : List Msg) :
    (∀ (cursor : Option Nat) (count fuel : Nat),
      fetchMessages conv cursor BATCH_SIZE = [] →
      purgeLoop botId del conv (fuel + 1) cursor count =
        ([Event.fetch cursor 0], some (Except.ok count)) ∧
      okIds (purgeLoop botId del conv (fuel + 1) cursor count).1 = [] ∧
      delayCount (purgeLoop botId del conv (fuel + 1) cursor count).1 = 0) ∧
    (∀ c n, (some c, n) ∈ fetchEvents (deleteBotMessagesFromDM botId del conv).1 →
      c ∈ conv.map Msg.id) := by
  refine ⟨?_, ?_⟩
  · intro cursor count fuel hp
    have he := purgeLoop_empty botId del conv fuel cursor count hp
    refine ⟨he, ?_, ?_⟩
    · rw [he]
      rfl
    · rw [he]
      rfl
  · intro c n hmem
    rw [deleteBot_fst] at hmem
    exact purgeLoop_cursor_provenance botId del conv (conv.length + 1) none 0
      (Or.inl rfl) c n hmem

/-- C9 witness: a one-message conversation; the second fetch's cursor `5` is
the identifier of the conversation's message, and an empty fetch returns
immediately with no deletions. -/
theorem c9_cursor_advance_guard_witness :
    purgeLoop 1 (fun _ => none) [⟨5, 1⟩] 1 (some 2) 0 =
      ([Event.fetch (some 2) 0], some (Except.ok 0)) ∧
    (5 : Nat) ∈ ([⟨5, 1⟩] : List Msg).map Msg.id ∧
    fetchEvents (deleteBotMessagesFromDM 1 (fun _ => none) [⟨5, 1⟩]).1 =
      [(none, 1), (some 5, 0)] := by
  have h := c9_cursor_advance_guard 1 (fun _ => none) [⟨5, 1⟩]
  exact ⟨(h.1 (some 2) 0 0 (by decide)).1,
    h.2 5 0 (by decide), by decide⟩

/-- C3: when the deletion of the k-th bot-authored message faults with the
rate-limit signal code (`pre` holds the k-1 bot messages before it), the run
aborts at once with the rate-limit error: exactly the k-1 prior deletions
were performed and logged, no per-message failure is logged, no fetch is
issued beyond the page containing the faulting message, no later bot message
is touched, and the purger process exits with the rate-limit code 3. -/
theorem c3_rate_limit_abort (botId : Nat) (del : Nat → Option Nat)
    (conv : List Msg) (env : String → Option String)
    (hs : SortedConv conv) (pre : List Msg) (mkm : Msg) (post : List Msg)
    (hsplit : botList botId conv = pre ++ mkm :: post)
    (hpre : ∀ m ∈ pre, del m.id = none)
    (hmk : del mkm.id = some RATE_LIMIT_SIGNAL)
    (henv : missingVars env = []) :
    (deleteBotMessagesFromDM botId del conv).2 =
      some (Except.error "Failed to delete messages: Rate limit exceeded") ∧
    okIds (deleteBotMessagesFromDM botId del conv).1 = pre.map Msg.id ∧
    (okIds (deleteBotMessagesFromDM botId del conv).1).length = pre.length ∧
    delayCount (deleteBotMessagesFromDM botId del conv).1 = pre.length ∧
    failPairs (deleteBotMessagesFromDM botId del conv).1 = [] ∧
    fetchCount (deleteBotMessagesFromDM botId del conv).1 = pagesUntil conv mkm.id ∧
    purgerMain env PurgerNet.ready botId del conv =
      ([SAction.createClient, SAction.login,
        SAction.logErr "Failed to delete messages: Rate limit exceeded",
        SAction.destroy], PURGER_RATE_LIMIT) := by
  have hv := validateEnvironment_ok env henv
  obtain ⟨g1, g2, g3, g4, g5⟩ :=
    deleteBot_abortRL botId del conv hs pre mkm post hsplit hpre hmk
  have hinc : strIncludes "Failed to delete messages: Rate limit exceeded"
      "Rate limit" = true := by decide
  refine ⟨g1, g2, by rw [g2, List.length_map], g4, g3, g5, ?_⟩
  simp [purgerMain, hv, g1, purgerRunExitCode, hinc]

/-- C3 witness: three bot messages, a rate-limit fault on the second: one
deletion happened, the run aborts with one fetch and the purger exits 3. -/
theorem c3_rate_limit_abort_witness :
    (deleteBotMessagesFromDM 1 (fun i => if i = 9 then some 50001 else none)
      [⟨10, 1⟩, ⟨9, 1⟩, ⟨8, 1⟩]).2 =
      some (Except.error "Failed to delete messages: Rate limit exceeded") ∧
    okIds (deleteBotMessagesFromDM 1 (fun i => if i = 9 then some 50001 else none)
      [⟨10, 1⟩, ⟨9, 1⟩, ⟨8, 1⟩]).1 = [10] ∧
    delayCount (deleteBotMessagesFromDM 1 (fun i => if i = 9 then some 50001 else none)
      [⟨10, 1⟩, ⟨9, 1⟩, ⟨8, 1⟩]).1 = 1 ∧
    fetchCount (deleteBotMessagesFromDM 1 (fun i => if i = 9 then some 50001 else none)
      [⟨10, 1⟩, ⟨9, 1⟩, ⟨8, 1⟩]).1 = 1 ∧
    (purgerMain (fun k => if k = "BOT_TOKEN" then some "token" else
        if k = "DM_USER_ID" then some "42" else none) PurgerNet.ready 1
      (fun i => if i = 9 then some 50001 else none) [⟨10, 1⟩, ⟨9, 1⟩, ⟨8, 1⟩]).2 =
      PURGER_RATE_LIMIT := by
  have h := c3_rate_limit_abort 1 (fun i => if i = 9 then some 50001 else none)
    [⟨10, 1⟩, ⟨9, 1⟩, ⟨8, 1⟩]
    (fun k => if k = "BOT_TOKEN" then some "token" else
      if k = "DM_USER_ID" then some "42" else none)
    (by decide) [⟨10, 1⟩] ⟨9, 1⟩ [⟨8, 1⟩] (by decide) (by decide) (by decide)
    (by decide)
  refine ⟨h.1, h.2.1, h.2.2.2.1, ?_, by rw [h.2.2.2.2.2.2]⟩
  rw [h.2.2.2.2.2.1]
  exact pagesUntil_mem _ (by decide) _ (by decide)

/-- C5: a deletion fault whose code is not the rate-limit signal, hitting one
bot message `mf`, is logged as a per-message failure and does not abort the
run: every other bot message of the conversation is still deleted (in every
page, before and after the fault), the whole conversation is still paged
through, and the failed message is not counted — the run returns the number
of bot messages minus one. -/
theorem c5_nonfatal_fault (botId : Nat) (del : Nat → Option Nat) (conv : List Msg)
    (hs : SortedConv conv) (mf : Msg) (cf : Nat)
    (hmem : mf ∈ conv) (hbot : mf.authorId = botId)
    (hdel : del mf.id = some cf) (hcf : cf ≠ RATE_LIMIT_SIGNAL)
    (hothers : ∀ m ∈ conv, m.authorId = botId → m.id ≠ mf.id → del m.id = none) :
    (deleteBotMessagesFromDM botId del conv).2 =
      some (Except.ok ((botList botId conv).length - 1)) ∧
    okIds (deleteBotMessagesFromDM botId del conv).1 =
      ((botList botId conv).filter (fun m => m.id ≠ mf.id)).map Msg.id ∧
    failPairs (deleteBotMessagesFromDM botId del conv).1 = [(mf.id, cf)] ∧
    delayCount (deleteBotMessagesFromDM botId del conv).1 =
      (botList botId conv).length - 1 ∧
    fetchCount (deleteBotMessagesFromDM botId del conv).1 =
      (conv.length + (BATCH_SIZE - 1)) / BATCH_SIZE + 1 ∧
    mf.id ∉ okIds (deleteBotMessagesFromDM botId del conv).1 := by
  have hnoRL : ∀ m ∈ conv, m.authorId = botId → del m.id ≠ some RATE_LIMIT_SIGNAL := by
    intro m hm hb hc
    by_cases hid : m.id = mf.id
    · rw [hid, hdel] at hc
      exact hcf (Option.some.inj hc)
    · rw [hothers m hm hb hid] at hc
      cases hc
  obtain ⟨l1, l2, rfl⟩ := List.append_of_mem hmem
  obtain ⟨hp1, hp2, hcross⟩ := List.pairwise_append.mp hs
  have hcross1 : ∀ x ∈ l1, mf.id < x.id := by
    intro x hx
    exact hcross x hx mf (List.mem_cons_self _ _)
  have hl2lt : ∀ x ∈ l2, x.id < mf.id := (List.pairwise_cons.mp hp2).1
  have hok1 : ∀ m ∈ botList botId l1, del m.id = none := by
    intro m hm
    obtain ⟨hm1, hb⟩ := mem_botList.mp hm
    refine hothers m (List.mem_append_left _ hm1) hb ?_
    have := hcross1 m hm1
    omega
  have hok2 : ∀ m ∈ botList botId l2, del m.id = none := by
    intro m hm
    obtain ⟨hm1, hb⟩ := mem_botList.mp hm
    refine hothers m (List.mem_append_right _ (List.mem_cons_of_mem _ hm1)) hb ?_
    have := hl2lt m hm1
    omega
  have hoks : expectedOks botId del (l1 ++ mf :: l2) =
      (botList botId l1).map Msg.id ++ (botList botId l2).map Msg.id := by
    rw [expectedOks_append, expectedOks_all_ok botId del l1 hok1,
      expectedOks_cons_fail hbot hdel, expectedOks_all_ok botId del l2 hok2]
  have hfails : expectedFails botId del (l1 ++ mf :: l2) = [(mf.id, cf)] := by
    rw [expectedFails_append, expectedFails_all_ok botId del l1 hok1,
      expectedFails_cons_fail hbot hdel, expectedFails_all_ok botId del l2 hok2,
      List.nil_append]
  have hbots : botList botId (l1 ++ mf :: l2) =
      botList botId l1 ++ mf :: botList botId l2 := by
    rw [botList_append, botList_cons_bot hbot]
  have hfilter : (botList botId (l1 ++ mf :: l2)).filter (fun m => m.id ≠ mf.id) =
      botList botId l1 ++ botList botId l2 := by
    rw [hbots, List.filter_append]
    congr 1
    · rw [List.filter_eq_self]
      intro x hx
      have := hcross1 x (mem_botList.mp hx).1
      simp
      omega
    · rw [List.filter_cons_of_neg (by simp)]
      rw [List.filter_eq_self]
      intro x hx
      have := hl2lt x (mem_botList.mp hx).1
      simp
      omega
  have hlen : (botList botId (l1 ++ mf :: l2)).length - 1 =
      (botList botId l1).length + (botList botId l2).length := by
    rw [hbots, List.length_append, List.length_cons]
    omega
  obtain ⟨g1, g2, g3, g4, g5⟩ := deleteBot_noRL botId del (l1 ++ mf :: l2)
    hs hnoRL
  rw [hoks] at g1 g2 g4
  rw [hfails] at g3
  have hokids : okIds (deleteBotMessagesFromDM botId del (l1 ++ mf :: l2)).1 =
      ((botList botId (l1 ++ mf :: l2)).filter (fun m => m.id ≠ mf.id)).map Msg.id := by
    rw [g2, hfilter, List.map_append]
  refine ⟨?_, hokids, g3, ?_, g5, ?_⟩
  · rw [g1, hlen, List.length_append, List.length_map, List.length_map]
  · rw [g4, hlen, List.length_append, List.length_map, List.length_map]
  · intro hin
    rw [hokids] at hin
    obtain ⟨x, hx, hxid⟩ := List.mem_map.mp hin
    have hne := (List.mem_filter.mp hx).2
    simp at hne
    exact hne hxid

/-- C5 witness: three bot messages, a non-rate-limit fault (code 10008) on
the middle one: both other messages are still deleted, the fault is logged,
and the run returns 2. -/
theorem c5_nonfatal_fault_witness :
    (deleteBotMessagesFromDM 1 (fun i => if i = 9 then some 10008 else none)
      [⟨10, 1⟩, ⟨9, 1⟩, ⟨8, 1⟩]).2 = some (Except.ok 2) ∧
    okIds (deleteBotMessagesFromDM 1 (fun i => if i = 9 then some 10008 else none)
      [⟨10, 1⟩, ⟨9, 1⟩, ⟨8, 1⟩]).1 = [10, 8] ∧
    failPairs (deleteBotMessagesFromDM 1 (fun i => if i = 9 then some 10008 else none)
      [⟨10, 1⟩, ⟨9, 1⟩, ⟨8, 1⟩]).1 = [(9, 10008)] ∧
    (9 : Nat) ∉ okIds (deleteBotMessagesFromDM 1
      (fun i => if i = 9 then some 10008 else none) [⟨10, 1⟩, ⟨9, 1⟩, ⟨8, 1⟩]).1 := by
  have h := c5_nonfatal_fault 1 (fun i => if i = 9 then some 10008 else none)
    [⟨10, 1⟩, ⟨9, 1⟩, ⟨8, 1⟩] (by decide) ⟨9, 1⟩ 10008 (by decide) rfl (by decide)
    (by decide) (by decide)
  exact ⟨h.1, h.2.1, h.2.2.1, h.2.2.2.2.2⟩

/-- C8 counterexample: a login failure (for example an invalid token) is a
handled fault caught by the outer catch block, which exits without calling
`client.destroy()` although the client has already been constructed — so the
claim that every handled-fault exit path tears the constructed client down
exactly once is false.  The purger has the same gap. -/
theorem c8_counterexample :
    (senderMain (fun k => if k = "BOT_TOKEN" then some "token" else
        if k = "DM_USER_ID" then some "42" else none) "hi"
      (SenderNet.loginFail "An invalid token was provided.")).1.count
        SAction.createClient = 1 ∧
    (senderMain (fun k => if k = "BOT_TOKEN" then some "token" else
        if k = "DM_USER_ID" then some "42" else none) "hi"
      (SenderNet.loginFail "An invalid token was provided.")).1.count
        SAction.destroy = 0 ∧
    (purgerMain (fun k => if k = "BOT_TOKEN" then some "token" else
        if k = "DM_USER_ID" then some "42" else none)
      (PurgerNet.loginFail "An invalid token was provided.") 1 (fun _ => none)
      []).1.count SAction.createClient = 1 ∧
    (purgerMain (fun k => if k = "BOT_TOKEN" then some "token" else
        if k = "DM_USER_ID" then some "42" else none)
      (PurgerNet.loginFail "An invalid token was provided.") 1 (fun _ => none)
      []).1.count SAction.destroy = 0 := by
  refine ⟨by decide, by decide, by decide, by decide⟩

/-- C8 (amended): on every post-login exit path of either run — success,
handled post-login fault, or asynchronous client-level fault — a constructed
chat client is destroyed exactly once before the process exits (the trace
holds as many destroy actions as client constructions, and at most one); a
pre-login handled fault (login failure) exits without teardown. -/
theorem c8_teardown_once (env : String → Option String) (input : String)
    (net : SenderNet) (pnet : PurgerNet) (botId : Nat) (del : Nat → Option Nat)
    (conv : List Msg) (hnet : senderPostLogin net = true)
    (hpnet : purgerPostLogin pnet = true) (hs : SortedConv conv) :
    (senderMain env input net).1.count SAction.destroy =
      (senderMain env input net).1.count SAction.createClient ∧
    (senderMain env input net).1.count SAction.createClient ≤ 1 ∧
    (purgerMain env pnet botId del conv).1.count SAction.destroy =
      (purgerMain env pnet botId del conv).1.count SAction.createClient ∧
    (purgerMain env pnet botId del conv).1.count SAction.createClient ≤ 1 := by
  have hsender : (senderMain env input net).1.count SAction.destroy =
      (senderMain env input net).1.count SAction.createClient ∧
      (senderMain env input net).1.count SAction.createClient ≤ 1 := by
    cases hv : validateEnvironment env with
    | error e => refine ⟨by simp [senderMain, hv], by simp [senderMain, hv]⟩
    | ok u =>
      cases hr : readStdinResult input with
      | error e => refine ⟨by simp [senderMain, hv, hr], by simp [senderMain, hv, hr]⟩
      | ok msg =>
        cases net with
        | loginFail s => simp [senderPostLogin] at hnet
        | asyncError s =>
          refine ⟨by simp [senderMain, hv, hr, List.count_cons],
            by simp [senderMain, hv, hr, List.count_cons]⟩
        | ready o =>
          cases o with
          | none =>
            refine ⟨by simp [senderMain, hv, hr, List.count_cons],
              by simp [senderMain, hv, hr, List.count_cons]⟩
          | some s =>
            refine ⟨by simp [senderMain, hv, hr, List.count_cons],
              by simp [senderMain, hv, hr, List.count_cons]⟩
  have hpurger : (purgerMain env pnet botId del conv).1.count SAction.destroy =
      (purgerMain env pnet botId del conv).1.count SAction.createClient ∧
      (purgerMain env pnet botId del conv).1.count SAction.createClient ≤ 1 := by
    cases hv : validateEnvironment env with
    | error e => refine ⟨by simp [purgerMain, hv], by simp [purgerMain, hv]⟩
    | ok u =>
      cases pnet with
      | loginFail s => simp [purgerPostLogin] at hpnet
      | asyncError s =>
        refine ⟨by simp [purgerMain, hv, List.count_cons],
          by simp [purgerMain, hv, List.count_cons]⟩
      | ready =>
        cases hres : (deleteBotMessagesFromDM botId del conv).2 with
        | none => exact absurd hres (deleteBot_terminates botId del conv hs)
        | some r =>
          cases r with
          | ok n =>
            refine ⟨by simp [purgerMain, hv, hres, List.count_cons],
              by simp [purgerMain, hv, hres, List.count_cons]⟩
          | error e =>
            refine ⟨by simp [purgerMain, hv, hres, List.count_cons],
              by simp [purgerMain, hv, hres, List.count_cons]⟩
  exact ⟨hsender.1, hsender.2, hpurger.1, hpurger.2⟩

/-- C8 witness: concrete successful runs of both programs tear the client
down exactly once. -/
theorem c8_teardown_once_witness :
    (senderMain (fun k => if k = "BOT_TOKEN" then some "token" else
        if k = "DM_USER_ID" then some "42" else none) "hi"
      (SenderNet.ready none)).1.count SAction.destroy =
      (senderMain (fun k => if k = "BOT_TOKEN" then some "token" else
        if k = "DM_USER_ID" then some "42" else none) "hi"
      (SenderNet.ready none)).1.count SAction.createClient ∧
    (purgerMain (fun k => if k = "BOT_TOKEN" then some "token" else
        if k = "DM_USER_ID" then some "42" else none) PurgerNet.ready 1
      (fun _ => none) [⟨10, 1⟩]).1.count SAction.destroy =
      (purgerMain (fun k => if k = "BOT_TOKEN" then some "token" else
        if k = "DM_USER_ID" then some "42" else none) PurgerNet.ready 1
      (fun _ => none) [⟨10, 1⟩]).1.count SAction.createClient := by
  have h := c8_teardown_once
    (fun k => if k = "BOT_TOKEN" then some "token" else
      if k = "DM_USER_ID" then some "42" else none) "hi"
    (SenderNet.ready none) PurgerNet.ready 1 (fun _ => none) [⟨10, 1⟩]
    rfl rfl (by decide)
  exact ⟨h.1, h.2.2.1⟩
